import Mathlib

/-!
# imdb-trakt-sync: the reconciliation engine of `sync.go`

A shallow embedding of `dataPair.difference` (sync.go, lines 142-213), of the two
phases `user.syncLists` and `user.syncRatings` that apply it (lines 70-119) and of
`cleanupLists` and `contains`, followed by the properties of the computed difference
and of the calls issued to the destination.

Conventions of the embedding

* Go slices are lists (a nil slice and an empty slice are both `[]`).
* Go strings are compared with `=` only, so they are Lean strings.
* A Go pointer that may be nil is an `Option`; dereferencing `none` is a run-time
  panic, and a function that can panic returns `Option`, with `none` for the panic.
* The set `temp` of type `map[string]struct{}` is the list of the keys inserted so
  far; only membership is ever asked of it.
* The result `map[string][]traktItem` is an association list with unique keys;
  indexing a missing key gives the zero value `[]`, as in Go.
-/

namespace ImdbTraktSync

/-! ## Data model -/

/-- Modelled from the spec: `time.Time` belongs to the Go standard library and is
not part of sync.go. The only thing sync.go does with a rating date is to evaluate
`ratingDate.UTC().String()` (lines 167-168), so a time value is represented by the
string that this expression yields. -/
structure Time where
  utcString : String
deriving DecidableEq, Repr

/-- Modelled from the spec: the declaration of `imdbItem` is not in sync.go. The
fields are the ones sync.go reads (`id`, `titleType`, `rating`, `ratingDate`);
`rating` is dereferenced after a nil test (lines 166, 169) and the spec (section 3)
makes both the rating and the rating timestamp optional, so both are pointers. -/
structure imdbItem where
  id : String := ""
  titleType : String := ""
  rating : Option Int := none
  ratingDate : Option Time := none
deriving DecidableEq, Repr

/-- Modelled from the spec: the declaration of `Ids` is not in sync.go. The fields
are the ones sync.go uses: `Imdb` (line 163) and `Slug` (line 92). -/
structure Ids where
  Imdb : String := ""
  Slug : String := ""
deriving DecidableEq, Repr

/-- Modelled from the spec: the declaration of `traktItemSpec` is not in sync.go.
The fields are the ones sync.go writes (lines 161-169). -/
structure traktItemSpec where
  Ids : Ids := {}
  RatedAt : String := ""
  Rating : Int := 0
deriving DecidableEq, Repr

/-- Modelled from the spec: the declaration of `traktItem` is not in sync.go. The
fields are the ones sync.go reads and writes (lines 147-153, 167, 173-186); the Go
field `Type` is written `Type_`, `Type` being a reserved word of Lean. The
defaults are Go zero values, so `{}` is `traktItem{}`. -/
structure traktItem where
  Type_ : String := ""
  Movie : traktItemSpec := {}
  Show : traktItemSpec := {}
  Episode : traktItemSpec := {}
  WatchedAt : String := ""
deriving DecidableEq, Repr

/-- The struct `dataPair` (sync.go, lines 15-22). -/
structure dataPair where
  imdbList : List imdbItem := []
  imdbListId : String := ""
  imdbListName : String := ""
  traktList : List traktItem := []
  traktListId : String := ""
  isWatchlist : Bool := false
deriving DecidableEq, Repr

/-! ## The result map -/

/-- The Go type `map[string][]traktItem`: an association list with unique keys. -/
abbrev Difference := List (String × List traktItem)

/-- The Go expression `m[k]`: the value stored under `k`, or the zero value (a nil
slice) when `k` is not a key. -/
def Difference.index : Difference → String → List traktItem
  | [], _ => []
  | (k', v) :: rest, k => if k' = k then v else Difference.index rest k

/-- The Go statement `m[k] = v`: overwrite the entry of `k`, or create it. -/
def Difference.assign : Difference → String → List traktItem → Difference
  | [], k, v => [(k, v)]
  | (k', v') :: rest, k, v =>
      if k' = k then (k, v) :: rest else (k', v') :: Difference.assign rest k v

/-- The keys present in the map. -/
def Difference.keys (m : Difference) : List String := m.map Prod.fst

/-! ## `dataPair.difference` -/

/-- The first loop (lines 146-157): the Imdb ids of the destination entities of
type movie, show or episode are inserted into `temp`; other entities are passed
over by `continue`. -/
def traktIdSet : List String → List traktItem → List String
  | temp, [] => temp
  | temp, tlItem :: rest =>
      if tlItem.Type_ = "movie" then traktIdSet (tlItem.Movie.Ids.Imdb :: temp) rest
      else if tlItem.Type_ = "show" then traktIdSet (tlItem.Show.Ids.Imdb :: temp) rest
      else if tlItem.Type_ = "episode" then traktIdSet (tlItem.Episode.Ids.Imdb :: temp) rest
      else traktIdSet temp rest

/-- The body of the second loop for a source entity that was not found in `temp`
(lines 160-187): the destination-shaped entity built from `ilItem`. With a rating
present the rating date is dereferenced (lines 167-168); `none` is the nil-pointer
panic of that dereference. -/
def newTraktItem (ilItem : imdbItem) : Option traktItem :=
  let ti : traktItem := {}
  let tiSpec : traktItemSpec := { Ids := { Imdb := ilItem.id } }
  let rated : Option (traktItem × traktItemSpec) :=
    match ilItem.rating with
    | some r =>
        match ilItem.ratingDate with
        | some d =>
            some ({ ti with WatchedAt := d.utcString },
                  { tiSpec with RatedAt := d.utcString, Rating := r })
        | none => none
    | none => some (ti, tiSpec)
  match rated with
  | none => none
  | some (ti, tiSpec) =>
      if ilItem.titleType = "movie" then some { ti with Type_ := "movie", Movie := tiSpec }
      else if ilItem.titleType = "tvSeries" then some { ti with Type_ := "show", Show := tiSpec }
      else if ilItem.titleType = "tvMiniSeries" then
        some { ti with Type_ := "show", Show := tiSpec }
      else if ilItem.titleType = "tvEpisode" then
        some { ti with Type_ := "episode", Episode := tiSpec }
      else some { ti with Type_ := "movie", Movie := tiSpec }

/-- The second loop (lines 158-190): every source entity whose id is not in `temp`
is converted and appended to `diff["add"]`. -/
def addLoop (temp : List String) : Difference → List imdbItem → Option Difference
  | diff, [] => some diff
  | diff, ilItem :: rest =>
      if ilItem.id ∈ temp then addLoop temp diff rest
      else
        match newTraktItem ilItem with
        | none => none
        | some ti => addLoop temp (diff.assign "add" (diff.index "add" ++ [ti])) rest

/-- The third loop (lines 193-195): the ids of all source entities are inserted
into the fresh `temp`. -/
def imdbIdSet : List String → List imdbItem → List String
  | temp, [] => temp
  | temp, ilItem :: rest => imdbIdSet (ilItem.id :: temp) rest

/-- The switch of the fourth loop (lines 197-207): the Imdb id extracted from a
destination entity; `none` stands for the `continue` of the default case. -/
def itemId (tlItem : traktItem) : Option String :=
  if tlItem.Type_ = "movie" then some tlItem.Movie.Ids.Imdb
  else if tlItem.Type_ = "show" then some tlItem.Show.Ids.Imdb
  else if tlItem.Type_ = "episode" then some tlItem.Episode.Ids.Imdb
  else none

/-- The fourth loop (lines 196-211): every destination entity of a recognised type
whose id is not in `temp` is appended, unchanged, to `diff["remove"]`. -/
def removeLoop (temp : List String) : Difference → List traktItem → Difference
  | diff, [] => diff
  | diff, tlItem :: rest =>
      match itemId tlItem with
      | none => removeLoop temp diff rest
      | some id =>
          if id ∈ temp then removeLoop temp diff rest
          else removeLoop temp (diff.assign "remove" (diff.index "remove" ++ [tlItem])) rest

/-- The method `dataPair.difference` (lines 142-213). `none` is a run-time panic. -/
def difference (dp : dataPair) : Option Difference :=
  let diff : Difference := []
  let temp := traktIdSet [] dp.traktList
  match addLoop temp diff dp.imdbList with
  | none => none
  | some diff =>
      let temp := imdbIdSet [] dp.imdbList
      some (removeLoop temp diff dp.traktList)

/-! ## The clients and their calls

The two clients are not part of sync.go. A run is described by the sequence of the
calls that it issues to the destination client, in order (the trace); a call whose
result sync.go reads carries that result. -/

/-- Modelled from the spec: the declaration of the elements of `tc.listsGet()` is not
in sync.go. The fields are the ones sync.go reads (lines 91-92). -/
structure traktList where
  Name : String := ""
  Ids : Ids := {}
deriving DecidableEq, Repr

/-- The calls that sync.go issues to the destination client (lines 75-116), with
their arguments; `listsGet` and `historyGet` also carry the result they returned. -/
inductive traktCall where
  | watchlistItemsAdd (items : List traktItem)
  | listItemsAdd (traktListId : String) (items : List traktItem)
  | watchlistItemsRemove (items : List traktItem)
  | listItemsRemove (traktListId : String) (items : List traktItem)
  | listsGet (result : List traktList)
  | listRemove (slug : String)
  | ratingsAdd (items : List traktItem)
  | ratingsRemove (items : List traktItem)
  | historyGet (item : traktItem) (result : List traktItem)
  | historyAdd (items : List traktItem)
  | historyRemove (items : List traktItem)
deriving DecidableEq, Repr

/-- Modelled from the spec: `traktClient` is declared outside sync.go; sections 1 and
6 of the spec make its methods reliable request/response functions, so every call
returns. What the two reading calls return may depend on everything the destination
has been asked so far, so each is a function of the trace up to the call; the history
entries are taken to be `traktItem`s, of which sync.go only takes the number (lines
103, 113). -/
structure traktClient where
  listsGet : List traktCall → List traktList
  historyGet : List traktCall → traktItem → List traktItem

/-- Modelled from the spec: the three results of `ic.listItemsGet` (line 127): the
pointer to the list name, the items, and of the error the one thing sync.go asks of
it, the value of `errors.Is(err, errNotFound)`. -/
structure listItemsResult where
  imdbListName : Option String := none
  imdbList : List imdbItem := []
  errIsNotFound : Bool := false
deriving DecidableEq, Repr

/-- Modelled from the spec: `imdbClient` is declared outside sync.go; the source
adapter is read-only (spec, section 6), so fetching a list is a function of its id. -/
structure imdbClient where
  listItemsGet : String → listItemsResult

/-- The struct `user` (lines 10-13). -/
structure user where
  lists : List dataPair := []
  ratings : dataPair := {}
deriving DecidableEq, Repr

/-! ## `user.syncLists` -/

/-- The second `if` of the loop body (lines 80-86): the remove call of one pair. -/
def syncListsRemove (list : dataPair) (diff : Difference) (trace : List traktCall) :
    List traktCall :=
  if (diff.index "remove").length > 0 then
    if list.isWatchlist then trace ++ [traktCall.watchlistItemsRemove (diff.index "remove")]
    else trace ++ [traktCall.listItemsRemove list.traktListId (diff.index "remove")]
  else trace

/-- The body of the first loop (lines 72-86) for one pair. The `continue` of line 76
ends the iteration right after `watchlistItemsAdd`; `none` is the panic of
`difference`. -/
def syncListsBody (list : dataPair) (trace : List traktCall) : Option (List traktCall) :=
  match difference list with
  | none => none
  | some diff =>
      if (diff.index "add").length > 0 then
        if list.isWatchlist then
          some (trace ++ [traktCall.watchlistItemsAdd (diff.index "add")])
        else
          some (syncListsRemove list diff
            (trace ++ [traktCall.listItemsAdd list.traktListId (diff.index "add")]))
      else some (syncListsRemove list diff trace)

/-- The first loop (lines 71-87). -/
def syncListsLoop : List dataPair → List traktCall → Option (List traktCall)
  | [], trace => some trace
  | list :: rest, trace =>
      match syncListsBody list trace with
      | none => none
      | some trace => syncListsLoop rest trace

/-- The function `contains` (lines 215-222). -/
def contains : List dataPair → String → Bool
  | [], _ => false
  | dp :: rest, traktListName =>
      if dp.imdbListName = traktListName then true else contains rest traktListName

/-- The second loop (lines 90-94). -/
def listRemoveLoop (lists : List dataPair) : List traktList → List traktCall → List traktCall
  | [], trace => trace
  | tl :: rest, trace =>
      if !contains lists tl.Name then
        listRemoveLoop lists rest (trace ++ [traktCall.listRemove tl.Ids.Slug])
      else listRemoveLoop lists rest trace

/-- The method `user.syncLists` (lines 70-95): the trace after the call, given the
trace before it. -/
def syncLists (u : user) (tc : traktClient) (trace : List traktCall) :
    Option (List traktCall) :=
  match syncListsLoop u.lists trace with
  | none => none
  | some trace =>
      let traktLists := tc.listsGet trace
      let trace := trace ++ [traktCall.listsGet traktLists]
      some (listRemoveLoop u.lists traktLists trace)

/-! ## `user.syncRatings` -/

/-- The loop of lines 101-107. -/
def historyAddLoop (tc : traktClient) : List traktItem → List traktCall → List traktCall
  | [], trace => trace
  | ti :: rest, trace =>
      let history := tc.historyGet trace ti
      let trace := trace ++ [traktCall.historyGet ti history]
      if history.length > 0 then historyAddLoop tc rest trace
      else historyAddLoop tc rest (trace ++ [traktCall.historyAdd [ti]])

/-- The loop of lines 111-117. -/
def historyRemoveLoop (tc : traktClient) : List traktItem → List traktCall → List traktCall
  | [], trace => trace
  | ti :: rest, trace =>
      let history := tc.historyGet trace ti
      let trace := trace ++ [traktCall.historyGet ti history]
      if history.length = 0 then historyRemoveLoop tc rest trace
      else historyRemoveLoop tc rest (trace ++ [traktCall.historyRemove [ti]])

/-- The method `user.syncRatings` (lines 97-119): the trace after the call, given
the trace before it; `none` is the panic of `difference`. -/
def syncRatings (u : user) (tc : traktClient) (trace : List traktCall) :
    Option (List traktCall) :=
  match difference u.ratings with
  | none => none
  | some diff =>
      let trace :=
        if (diff.index "add").length > 0 then
          historyAddLoop tc (diff.index "add")
            (trace ++ [traktCall.ratingsAdd (diff.index "add")])
        else trace
      let trace :=
        if (diff.index "remove").length > 0 then
          historyRemoveLoop tc (diff.index "remove")
            (trace ++ [traktCall.ratingsRemove (diff.index "remove")])
        else trace
      some trace

/-! ## `cleanupLists` -/

/-- The loop of `cleanupLists` (lines 126-138) on the slice `lists` and the counter
`n`. `formatTraktListName` is declared outside sync.go and is a parameter. `none` is
a panic: the dereference of a nil `imdbListName` (lines 134-135) or an index out of
range (line 131). -/
def cleanupListsLoop (ic : imdbClient) (formatTraktListName : String → String) :
    List String → List dataPair → Nat → Option (List dataPair × Nat)
  | [], lists, n => some (lists, n)
  | imdbListId :: rest, lists, n =>
      let r := ic.listItemsGet imdbListId
      if r.errIsNotFound then cleanupListsLoop ic formatTraktListName rest lists n
      else
        match r.imdbListName with
        | none => none
        | some imdbListName =>
            if n < lists.length then
              cleanupListsLoop ic formatTraktListName rest
                (lists.set n
                  { imdbList := r.imdbList,
                    imdbListId := imdbListId,
                    imdbListName := imdbListName,
                    traktListId := formatTraktListName imdbListName })
                (n + 1)
            else none

/-- The function `cleanupLists` (lines 123-140): a slice of `len(imdbListIds)` zero
pairs is filled from the front and cut to the number of pairs written. -/
def cleanupLists (ic : imdbClient) (formatTraktListName : String → String)
    (imdbListIds : List String) : Option (List dataPair) :=
  match cleanupListsLoop ic formatTraktListName imdbListIds
      (List.replicate imdbListIds.length {}) 0 with
  | none => none
  | some (lists, n) => some (lists.take n)

/-! ## Auxiliary descriptions of the loops

The loops are rewritten as list functions, so that the properties of the result
can be read off `List.filter` and `List.map`. -/

/-- The effect of a run of `m[k] = append(m[k], x)` for the elements `x` of `items`,
in order: nothing when there are none, so the key is not created then. -/
def Difference.extend (m : Difference) (k : String) (items : List traktItem) : Difference :=
  if items = [] then m else m.assign k (m.index k ++ items)

/-- The entities appended by the second loop, or `none` when one conversion panics. -/
def addItems (temp : List String) : List imdbItem → Option (List traktItem)
  | [] => some []
  | ilItem :: rest =>
      if ilItem.id ∈ temp then addItems temp rest
      else
        match newTraktItem ilItem with
        | none => none
        | some ti => (addItems temp rest).map (fun l => ti :: l)

/-- The entities appended by the fourth loop. -/
def removeItems (temp : List String) (tl : List traktItem) : List traktItem :=
  tl.filter (fun t => match itemId t with
    | none => false
    | some id => decide (id ∉ temp))

/-- The calls that the body of the first loop of `syncLists` issues for one pair, as
a list: the add call, then (unless the pair is the watchlist and an add call was
issued) the remove call. -/
def pairCalls (list : dataPair) (d : Difference) : List traktCall :=
  if d.index "add" = [] then syncListsRemove list d []
  else if list.isWatchlist then [traktCall.watchlistItemsAdd (d.index "add")]
  else traktCall.listItemsAdd list.traktListId (d.index "add") :: syncListsRemove list d []

/-- The results of the lookups of the loop of lines 101-107, in order: each is what
the client returns on the trace as it stands at that lookup. -/
def historyAddResults (tc : traktClient) :
    List traktItem → List traktCall → List (List traktItem)
  | [], _ => []
  | ti :: rest, trace =>
      let history := tc.historyGet trace ti
      let trace := trace ++ [traktCall.historyGet ti history]
      history ::
        historyAddResults tc rest
          (if history = [] then trace ++ [traktCall.historyAdd [ti]] else trace)

/-- The results of the lookups of the loop of lines 111-117, in order. -/
def historyRemoveResults (tc : traktClient) :
    List traktItem → List traktCall → List (List traktItem)
  | [], _ => []
  | ti :: rest, trace =>
      let history := tc.historyGet trace ti
      let trace := trace ++ [traktCall.historyGet ti history]
      history ::
        historyRemoveResults tc rest
          (if history = [] then trace else trace ++ [traktCall.historyRemove [ti]])

/-- The pairs that the loop of `cleanupLists` writes, in order, or `none` when a
list name is nil. -/
def cleanupPairs (ic : imdbClient) (formatTraktListName : String → String) :
    List String → Option (List dataPair)
  | [] => some []
  | imdbListId :: rest =>
      let r := ic.listItemsGet imdbListId
      if r.errIsNotFound then cleanupPairs ic formatTraktListName rest
      else
        match r.imdbListName with
        | none => none
        | some imdbListName =>
            (cleanupPairs ic formatTraktListName rest).map (fun ps =>
              { imdbList := r.imdbList,
                imdbListId := imdbListId,
                imdbListName := imdbListName,
                traktListId := formatTraktListName imdbListName } :: ps)

/-! ## Vocabulary of the statements -/

/-- The destination list after a difference has been applied to it: the entities of
`diff["remove"]` are deleted and the entities of `diff["add"]` are appended. This is
the conceptual application of the idempotence property; sync.go has no such
function, the destination service does it. -/
def applyDifference (dp : dataPair) (d : Difference) : dataPair :=
  { dp with
    traktList :=
      dp.traktList.filter (fun t => decide (t ∉ d.index "remove")) ++ d.index "add" }

/-- The sub-record of a destination entity that its type names, chosen as by the
switch of lines 198-204; the zero record for any other type. -/
def namedSpec (t : traktItem) : traktItemSpec :=
  if t.Type_ = "movie" then t.Movie
  else if t.Type_ = "show" then t.Show
  else if t.Type_ = "episode" then t.Episode
  else {}

/-- The category table as the spec words it, between a source entity and the
addition built from it: movie gives movie, tvSeries and tvMiniSeries give show,
tvEpisode gives episode, anything else gives movie; and the source id sits in the
sub-record that the type names. -/
def categoryMapped (i : imdbItem) (t : traktItem) : Prop :=
  t.Type_ =
      (if i.titleType = "movie" then "movie"
       else if i.titleType = "tvSeries" ∨ i.titleType = "tvMiniSeries" then "show"
       else if i.titleType = "tvEpisode" then "episode"
       else "movie") ∧
    (t.Type_ = "movie" → t.Movie.Ids.Imdb = i.id) ∧
    (t.Type_ = "show" → t.Show.Ids.Imdb = i.id) ∧
    (t.Type_ = "episode" → t.Episode.Ids.Imdb = i.id)

/-- Rating carry-over as the spec words it, between a source entity and the addition
built from it: with a rating, the named sub-record has that rating and the UTC string
of the rating date, which is also the watch date; without one, the three fields are
zero. -/
def ratingCarried (i : imdbItem) (t : traktItem) : Prop :=
  (∀ r : Int, i.rating = some r →
    ∃ dt : Time, i.ratingDate = some dt ∧ (namedSpec t).Rating = r ∧
      (namedSpec t).RatedAt = dt.utcString ∧ t.WatchedAt = dt.utcString) ∧
  (i.rating = none →
    (namedSpec t).Rating = 0 ∧ (namedSpec t).RatedAt = "" ∧ t.WatchedAt = "")

/-- The two calls that add items to a destination list. -/
def isAddCall : traktCall → Bool
  | traktCall.watchlistItemsAdd _ => true
  | traktCall.listItemsAdd _ _ => true
  | _ => false

/-- The four calls that add items to, or remove items from, a destination list. -/
def isItemCall : traktCall → Bool
  | traktCall.watchlistItemsAdd _ => true
  | traktCall.listItemsAdd _ _ => true
  | traktCall.watchlistItemsRemove _ => true
  | traktCall.listItemsRemove _ _ => true
  | _ => false

/-- Exclusive routing as the spec words it, between a pair with difference `d` and
the calls `seg` issued while the pair is processed: for the watchlist no generic
call, for another list no watchlist call and every generic call with the list id of
the pair; and a non-empty `add` gives exactly one add call, of the kind of the pair,
carrying `add`. -/
def routedCalls (list : dataPair) (d : Difference) (seg : List traktCall) : Prop :=
  (list.isWatchlist = true → ∀ c ∈ seg, ∀ (id : String) (items : List traktItem),
    c ≠ traktCall.listItemsAdd id items ∧ c ≠ traktCall.listItemsRemove id items) ∧
  (list.isWatchlist = false → ∀ c ∈ seg,
    (∀ items : List traktItem,
      c ≠ traktCall.watchlistItemsAdd items ∧ c ≠ traktCall.watchlistItemsRemove items) ∧
    (∀ (id : String) (items : List traktItem),
      c = traktCall.listItemsAdd id items ∨ c = traktCall.listItemsRemove id items →
        id = list.traktListId)) ∧
  (d.index "add" ≠ [] →
    seg.filter isAddCall =
      [if list.isWatchlist then traktCall.watchlistItemsAdd (d.index "add")
       else traktCall.listItemsAdd list.traktListId (d.index "add")])

/-- History gating of additions as the spec words it: for the items in order, each
with the result `r` of its lookup, the lookup and then one `historyAdd` of that
single item when `r` is empty, nothing when it is not. -/
def addSegments (items : List traktItem) (rs : List (List traktItem)) : List traktCall :=
  (items.zip rs).flatMap (fun p =>
    traktCall.historyGet p.1 p.2 :: (if p.2 = [] then [traktCall.historyAdd [p.1]] else []))

/-- History gating of removals as the spec words it: for the items in order, each
with the result `r` of its lookup, the lookup and then nothing when `r` is empty, one
`historyRemove` of that single item when it is not. -/
def removeSegments (items : List traktItem) (rs : List (List traktItem)) : List traktCall :=
  (items.zip rs).flatMap (fun p =>
    traktCall.historyGet p.1 p.2 :: (if p.2 = [] then [] else [traktCall.historyRemove [p.1]]))

/-- The entity that a history lookup asks for. -/
def lookedUp : traktCall → Option traktItem
  | traktCall.historyGet item _ => some item
  | _ => none

/-- An addition that the engine itself recognises, between a source entity and the
addition built from it: the type is one of movie, show, episode, the id extracted by
the rule of the fourth loop is the source id, and the two sub-records that the type
does not name are zero. -/
def recognisable (i : imdbItem) (t : traktItem) : Prop :=
  (t.Type_ = "movie" ∨ t.Type_ = "show" ∨ t.Type_ = "episode") ∧
  itemId t = some i.id ∧
  (t.Type_ = "movie" → t.Show = {} ∧ t.Episode = {}) ∧
  (t.Type_ = "show" → t.Movie = {} ∧ t.Episode = {}) ∧
  (t.Type_ = "episode" → t.Movie = {} ∧ t.Show = {})

/-- A converged pair: the set of the source ids is the set of the ids extracted from
the destination entities of a recognised type. -/
def converged (dp : dataPair) : Prop :=
  ∀ k : String, k ∈ dp.imdbList.map (fun i => i.id) ↔ k ∈ dp.traktList.filterMap itemId

/-- The pair returned for a requested id, as the spec words it: the requested id,
the fetched name and items, the destination id formatted from the name, not the
watchlist, and no destination items yet. -/
def fetchedPair (ic : imdbClient) (formatTraktListName : String → String)
    (imdbListId : String) (dp : dataPair) : Prop :=
  dp.imdbListId = imdbListId ∧
  (ic.listItemsGet imdbListId).imdbListName = some dp.imdbListName ∧
  dp.imdbList = (ic.listItemsGet imdbListId).imdbList ∧
  dp.traktListId = formatTraktListName dp.imdbListName ∧
  dp.isWatchlist = false ∧
  dp.traktList = []

/-! ## Example data -/

/-- A pair with one entity on both sides (tt1), one only at the source (tt2, rated),
one only at the destination (tt3) and a destination entity of an unknown type. -/
def pairA : dataPair :=
  { imdbList :=
      [ { id := "tt1", titleType := "movie" },
        { id := "tt2", titleType := "tvSeries", rating := some 8,
          ratingDate := some ⟨"2020-01-02 03:04:05 +0000 UTC"⟩ } ],
    traktList :=
      [ { Type_ := "movie", Movie := { Ids := { Imdb := "tt1" } } },
        { Type_ := "show", Show := { Ids := { Imdb := "tt3" } } },
        { Type_ := "person", Movie := { Ids := { Imdb := "tt2" } } } ] }

/-- The difference of `pairA`. -/
def diffA : Difference :=
  [ ("add",
      [ { Type_ := "show",
          Show := { Ids := { Imdb := "tt2" }, RatedAt := "2020-01-02 03:04:05 +0000 UTC",
                    Rating := 8 },
          WatchedAt := "2020-01-02 03:04:05 +0000 UTC" } ]),
    ("remove", [ { Type_ := "show", Show := { Ids := { Imdb := "tt3" } } } ]) ]

/-- A source series tt1, rated but without a rating date, against a destination
movie tt1 and a destination entity of an unknown type. -/
def pairB : dataPair :=
  { imdbList := [ { id := "tt1", titleType := "tvSeries", rating := some 7 } ],
    traktList :=
      [ { Type_ := "movie", Movie := { Ids := { Imdb := "tt1" }, Rating := 3 } },
        { Type_ := "", Show := { Ids := { Imdb := "tt5" } } } ] }

/-- The end-to-end example of the spec: a source list of one movie tt1 against an
empty destination list. -/
def pairC : dataPair := { imdbList := [ { id := "tt1", titleType := "movie" } ] }

/-- The difference of `pairC`. -/
def diffC : Difference :=
  [ ("add", [ { Type_ := "movie", Movie := { Ids := { Imdb := "tt1" } } } ]) ]

/-- A source list with one entity of every known titleType and two of unknown ones,
against an empty destination list. -/
def pairD : dataPair :=
  { imdbList :=
      [ { id := "tt1", titleType := "movie" }, { id := "tt2", titleType := "tvSeries" },
        { id := "tt3", titleType := "tvMiniSeries" }, { id := "tt4", titleType := "tvEpisode" },
        { id := "tt5", titleType := "video" }, { id := "tt6", titleType := "" } ] }

/-- The difference of `pairD`. -/
def diffD : Difference :=
  [ ("add",
      [ { Type_ := "movie", Movie := { Ids := { Imdb := "tt1" } } },
        { Type_ := "show", Show := { Ids := { Imdb := "tt2" } } },
        { Type_ := "show", Show := { Ids := { Imdb := "tt3" } } },
        { Type_ := "episode", Episode := { Ids := { Imdb := "tt4" } } },
        { Type_ := "movie", Movie := { Ids := { Imdb := "tt5" } } },
        { Type_ := "movie", Movie := { Ids := { Imdb := "tt6" } } } ]) ]

/-- The ratings example of the spec: a source rating of 8 for tt2, given at T,
against no destination rating. -/
def pairE : dataPair :=
  { imdbList :=
      [ { id := "tt2", rating := some 8,
          ratingDate := some ⟨"2021-06-07 08:09:10 +0000 UTC"⟩ } ] }

/-- The difference of `pairE`. -/
def diffE : Difference :=
  [ ("add",
      [ { Type_ := "movie",
          Movie := { Ids := { Imdb := "tt2" }, RatedAt := "2021-06-07 08:09:10 +0000 UTC",
                     Rating := 8 },
          WatchedAt := "2021-06-07 08:09:10 +0000 UTC" } ]) ]

/-- A source list that names tt1 twice, against an empty destination list. -/
def pairF : dataPair :=
  { imdbList := [ { id := "tt1", titleType := "movie" }, { id := "tt1", titleType := "movie" } ] }

/-- The difference of `pairF`: tt1 is added twice. -/
def diffF : Difference :=
  [ ("add",
      [ { Type_ := "movie", Movie := { Ids := { Imdb := "tt1" } } },
        { Type_ := "movie", Movie := { Ids := { Imdb := "tt1" } } } ]) ]

/-- A source entity with a rating and a nil rating date, against an empty
destination list. -/
def pairG : dataPair :=
  { imdbList := [ { id := "tt1", titleType := "movie", rating := some 8, ratingDate := none } ] }

/-- A destination client that owns the lists Foo and Bar and has no history. -/
def clientA : traktClient :=
  { listsGet := fun _ =>
      [ { Name := "Foo", Ids := { Slug := "foo" } }, { Name := "Bar", Ids := { Slug := "bar" } } ],
    historyGet := fun _ _ => [] }

/-- The watchlist with tt1 only at the source and tt2 only at the destination. -/
def pairW : dataPair :=
  { imdbList := [ { id := "tt1", titleType := "movie" } ],
    imdbListName := "watchlist",
    traktList := [ { Type_ := "movie", Movie := { Ids := { Imdb := "tt2" } } } ],
    isWatchlist := true }

/-- The difference of `pairW`, and of `pairL`. -/
def diffW : Difference :=
  [ ("add", [ { Type_ := "movie", Movie := { Ids := { Imdb := "tt1" } } } ]),
    ("remove", [ { Type_ := "movie", Movie := { Ids := { Imdb := "tt2" } } } ]) ]

/-- The list Foo with the same content as `pairW`. -/
def pairL : dataPair :=
  { pairW with imdbListName := "Foo", traktListId := "foo", isWatchlist := false }

/-- A user whose only list is the watchlist `pairW`. -/
def userW : user := { lists := [pairW] }

/-- A user with the list Foo and the watchlist. -/
def userL : user := { lists := [pairL, pairW] }

/-- The trace of `syncLists` for `userL` on `clientA`. -/
def traceL : List traktCall :=
  [ traktCall.listItemsAdd "foo" (diffW.index "add"),
    traktCall.listItemsRemove "foo" (diffW.index "remove"),
    traktCall.watchlistItemsAdd (diffW.index "add"),
    traktCall.listsGet
      [ { Name := "Foo", Ids := { Slug := "foo" } }, { Name := "Bar", Ids := { Slug := "bar" } } ],
    traktCall.listRemove "bar" ]

/-- A destination client without lists whose history holds tt2 only. -/
def clientB : traktClient :=
  { listsGet := fun _ => [],
    historyGet := fun _ ti => if ti.Movie.Ids.Imdb = "tt2" then [ti] else [] }

/-- A user whose ratings have tt1 only at the source and tt2 only at the
destination. -/
def userR : user := { ratings := { pairW with isWatchlist := false } }

/-- The trace of `syncRatings` for `userR` on `clientB`. -/
def traceR : List traktCall :=
  [ traktCall.ratingsAdd (diffW.index "add"),
    traktCall.historyGet { Type_ := "movie", Movie := { Ids := { Imdb := "tt1" } } } [],
    traktCall.historyAdd [ { Type_ := "movie", Movie := { Ids := { Imdb := "tt1" } } } ],
    traktCall.ratingsRemove (diffW.index "remove"),
    traktCall.historyGet { Type_ := "movie", Movie := { Ids := { Imdb := "tt2" } } }
      [ { Type_ := "movie", Movie := { Ids := { Imdb := "tt2" } } } ],
    traktCall.historyRemove [ { Type_ := "movie", Movie := { Ids := { Imdb := "tt2" } } } ] ]

/-- A user whose list Foo, watchlist and ratings are all converged. -/
def userC : user :=
  { lists := [ { pairB with imdbListName := "Foo", traktListId := "foo" },
               { pairB with imdbListName := "watchlist", isWatchlist := true } ],
    ratings := pairB }

/-- A source client that knows the lists ls1 and ls3 and reports any other id as not
found. -/
def clientI : imdbClient :=
  { listItemsGet := fun id =>
      if id = "ls1" then
        { imdbListName := some "Foo", imdbList := [ { id := "tt1", titleType := "movie" } ] }
      else if id = "ls3" then { imdbListName := some "Bar" }
      else { errIsNotFound := true } }

/-- The pairs of `cleanupLists` for the ids ls1, ls2, ls3 on `clientI`, with the list
name as destination id. -/
def pairsI : List dataPair :=
  [ { imdbList := [ { id := "tt1", titleType := "movie" } ], imdbListId := "ls1",
      imdbListName := "Foo", traktListId := "Foo" },
    { imdbListId := "ls3", imdbListName := "Bar", traktListId := "Bar" } ]

/-- A source client that knows the list ls1 and fails on any other id with an error
that is not `errNotFound`, returning a nil list name. -/
def clientJ : imdbClient :=
  { listItemsGet := fun id =>
      if id = "ls1" then { imdbListName := some "Foo" }
      else { imdbListName := none, imdbList := [], errIsNotFound := false } }

/-! ## The loops as list functions: lemmas -/

theorem Difference.index_assign_same (m : Difference) (k : String) (v : List traktItem) :
    (m.assign k v).index k = v := by
  induction m with
  | nil => simp [Difference.assign, Difference.index]
  | cons p rest ih =>
    obtain ⟨k', v'⟩ := p
    by_cases h : k' = k
    · simp [Difference.assign, Difference.index, h]
    · simp [Difference.assign, Difference.index, h, ih]

theorem Difference.index_assign_ne (m : Difference) (k k' : String) (v : List traktItem)
    (hk : k ≠ k') : (m.assign k v).index k' = m.index k' := by
  induction m with
  | nil => simp [Difference.assign, Difference.index, hk]
  | cons p rest ih =>
    obtain ⟨k₀, v₀⟩ := p
    by_cases h : k₀ = k
    · subst h
      simp [Difference.assign, Difference.index, hk]
    · by_cases h' : k₀ = k'
      · subst h'
        simp [Difference.assign, Difference.index, h]
      · simp [Difference.assign, Difference.index, h, h', ih]

theorem Difference.assign_assign (m : Difference) (k : String) (v w : List traktItem) :
    (m.assign k v).assign k w = m.assign k w := by
  induction m with
  | nil => simp [Difference.assign]
  | cons p rest ih =>
    obtain ⟨k₀, v₀⟩ := p
    by_cases h : k₀ = k
    · simp [Difference.assign, h]
    · simp [Difference.assign, h, ih]

theorem Difference.extend_nil (m : Difference) (k : String) : m.extend k [] = m := by
  simp [Difference.extend]

theorem Difference.extend_cons (m : Difference) (k : String) (x : traktItem)
    (items : List traktItem) :
    (m.assign k (m.index k ++ [x])).extend k items = m.extend k (x :: items) := by
  unfold Difference.extend
  by_cases h : items = []
  · simp [h]
  · simp [h, Difference.index_assign_same, Difference.assign_assign]

theorem Difference.index_extend_same (m : Difference) (k : String) (items : List traktItem) :
    (m.extend k items).index k = m.index k ++ items := by
  unfold Difference.extend
  by_cases h : items = []
  · simp [h]
  · simp [h, Difference.index_assign_same]

theorem Difference.index_extend_ne (m : Difference) (k k' : String) (items : List traktItem)
    (hk : k ≠ k') : (m.extend k items).index k' = m.index k' := by
  unfold Difference.extend
  by_cases h : items = []
  · simp [h]
  · simp [h, Difference.index_assign_ne _ _ _ _ hk]

theorem addLoop_eq (temp : List String) (src : List imdbItem) (diff : Difference) :
    addLoop temp diff src = (addItems temp src).map (fun items => diff.extend "add" items) := by
  induction src generalizing diff with
  | nil => simp [addLoop, addItems, Difference.extend_nil]
  | cons i rest ih =>
    by_cases h : i.id ∈ temp
    · simp [addLoop, addItems, h, ih]
    · cases hn : newTraktItem i with
      | none => simp [addLoop, addItems, h, hn]
      | some ti =>
        simp only [addLoop, addItems, h, hn, if_false, ih, Option.map_map]
        congr 1
        funext items
        exact Difference.extend_cons diff "add" ti items

theorem removeLoop_eq (temp : List String) (tl : List traktItem) (diff : Difference) :
    removeLoop temp diff tl = diff.extend "remove" (removeItems temp tl) := by
  induction tl generalizing diff with
  | nil => simp [removeLoop, removeItems, Difference.extend_nil]
  | cons t rest ih =>
    cases hid : itemId t with
    | none =>
      have : removeItems temp (t :: rest) = removeItems temp rest := by
        simp [removeItems, List.filter_cons, hid]
      simp [removeLoop, hid, ih, this]
    | some id =>
      by_cases h : id ∈ temp
      · have : removeItems temp (t :: rest) = removeItems temp rest := by
          simp [removeItems, List.filter_cons, hid, h]
        simp [removeLoop, hid, h, ih, this]
      · have : removeItems temp (t :: rest) = t :: removeItems temp rest := by
          simp [removeItems, List.filter_cons, hid, h]
        simp only [removeLoop, hid, h, if_false, ih, this]
        exact Difference.extend_cons diff "remove" t _

theorem mem_traktIdSet (tl : List traktItem) (temp : List String) (k : String) :
    k ∈ traktIdSet temp tl ↔ k ∈ temp ∨ k ∈ tl.filterMap itemId := by
  induction tl generalizing temp with
  | nil => simp [traktIdSet]
  | cons t rest ih =>
    by_cases h1 : t.Type_ = "movie"
    · simp [traktIdSet, itemId, h1, ih, List.filterMap_cons]
      tauto
    · by_cases h2 : t.Type_ = "show"
      · simp [traktIdSet, itemId, h1, h2, ih, List.filterMap_cons]
        tauto
      · by_cases h3 : t.Type_ = "episode"
        · simp [traktIdSet, itemId, h1, h2, h3, ih, List.filterMap_cons]
          tauto
        · simp [traktIdSet, itemId, h1, h2, h3, ih, List.filterMap_cons]

theorem mem_imdbIdSet (il : List imdbItem) (temp : List String) (k : String) :
    k ∈ imdbIdSet temp il ↔ k ∈ temp ∨ k ∈ il.map (fun i => i.id) := by
  induction il generalizing temp with
  | nil => simp [imdbIdSet]
  | cons i rest ih =>
    simp [imdbIdSet, ih]
    tauto

theorem addItems_congr (temp temp' : List String) (h : ∀ k, k ∈ temp ↔ k ∈ temp')
    (src : List imdbItem) : addItems temp src = addItems temp' src := by
  induction src with
  | nil => rfl
  | cons i rest ih => simp only [addItems, h i.id, ih]

theorem removeItems_congr (temp temp' : List String) (h : ∀ k, k ∈ temp ↔ k ∈ temp')
    (tl : List traktItem) : removeItems temp tl = removeItems temp' tl := by
  unfold removeItems
  apply List.filter_congr
  intro t _
  cases itemId t with
  | none => rfl
  | some id => simp [h id]

/-- The method `difference` as one expression over the two lists. -/
theorem difference_eq (dp : dataPair) :
    difference dp =
      (addItems (dp.traktList.filterMap itemId) dp.imdbList).map (fun a =>
        (Difference.extend [] "add" a).extend "remove"
          (removeItems (dp.imdbList.map (fun i => i.id)) dp.traktList)) := by
  have h1 : addItems (traktIdSet [] dp.traktList) dp.imdbList
      = addItems (dp.traktList.filterMap itemId) dp.imdbList :=
    addItems_congr _ _ (fun k => by simp [mem_traktIdSet]) _
  have h2 : removeItems (imdbIdSet [] dp.imdbList) dp.traktList
      = removeItems (dp.imdbList.map (fun i => i.id)) dp.traktList :=
    removeItems_congr _ _ (fun k => by simp [mem_imdbIdSet]) _
  unfold difference
  simp only [addLoop_eq, h1]
  cases addItems (dp.traktList.filterMap itemId) dp.imdbList with
  | none => rfl
  | some a => simp [removeLoop_eq, h2]

/-- What a returned difference holds under its two keys. -/
theorem difference_some (dp : dataPair) (d : Difference) (h : difference dp = some d) :
    addItems (dp.traktList.filterMap itemId) dp.imdbList = some (d.index "add") ∧
    d.index "remove" = removeItems (dp.imdbList.map (fun i => i.id)) dp.traktList := by
  rw [difference_eq] at h
  cases ha : addItems (dp.traktList.filterMap itemId) dp.imdbList with
  | none => simp [ha] at h
  | some a =>
    simp only [ha, Option.map_some', Option.some.injEq] at h
    subst h
    have hne : ("remove" : String) ≠ "add" := by decide
    have hne' : ("add" : String) ≠ "remove" := by decide
    constructor
    · rw [Difference.index_extend_ne _ _ _ _ hne, Difference.index_extend_same]
      simp [Difference.index]
    · rw [Difference.index_extend_same, Difference.index_extend_ne _ _ _ _ hne']
      simp [Difference.index]

theorem newTraktItem_itemId (i : imdbItem) (t : traktItem) (h : newTraktItem i = some t) :
    itemId t = some i.id := by
  unfold newTraktItem at h
  cases hr : i.rating with
  | none =>
    simp only [hr] at h
    split_ifs at h <;> simp only [Option.some.injEq] at h <;> subst h <;> simp [itemId]
  | some r =>
    cases hd : i.ratingDate with
    | none => simp [hr, hd] at h
    | some dt =>
      simp only [hr, hd] at h
      split_ifs at h <;> simp only [Option.some.injEq] at h <;> subst h <;> simp [itemId]

/-- Every conversion succeeds when each rated source entity has a rating date. -/
theorem newTraktItem_isSome (i : imdbItem) (h : i.rating.isSome → i.ratingDate.isSome) :
    (newTraktItem i).isSome := by
  unfold newTraktItem
  cases hr : i.rating with
  | none => simp only []; split_ifs <;> rfl
  | some r =>
    cases hd : i.ratingDate with
    | none => simp [hr, hd] at h
    | some dt => simp only []; split_ifs <;> rfl

theorem addItems_forall₂ (temp : List String) (src : List imdbItem) (a : List traktItem)
    (h : addItems temp src = some a) :
    List.Forall₂ (fun i t => newTraktItem i = some t)
      (src.filter (fun i => decide (i.id ∉ temp))) a := by
  induction src generalizing a with
  | nil =>
    simp only [addItems, Option.some.injEq] at h
    subst h
    exact List.Forall₂.nil
  | cons i rest ih =>
    by_cases hm : i.id ∈ temp
    · simp only [addItems, hm, if_true] at h
      simpa [List.filter_cons, hm] using ih a h
    · cases hn : newTraktItem i with
      | none => simp [addItems, hm, hn] at h
      | some ti =>
        cases hr : addItems temp rest with
        | none => simp [addItems, hm, hn, hr] at h
        | some a' =>
          simp only [addItems, hm, if_false, hn, hr, Option.map_some', Option.some.injEq] at h
          subst h
          have hc : List.Forall₂ (fun i t => newTraktItem i = some t)
              (i :: rest.filter (fun i => decide (i.id ∉ temp))) (ti :: a') :=
            List.Forall₂.cons hn (ih a' hr)
          simpa [List.filter_cons, hm] using hc

theorem addItems_isSome (temp : List String) (src : List imdbItem)
    (h : ∀ i ∈ src, i.rating.isSome → i.ratingDate.isSome) : (addItems temp src).isSome := by
  induction src with
  | nil => rfl
  | cons i rest ih =>
    have hrest := ih (fun j hj => h j (List.mem_cons_of_mem _ hj))
    by_cases hm : i.id ∈ temp
    · simpa [addItems, hm] using hrest
    · have hi := newTraktItem_isSome i (h i (List.mem_cons_self _ _))
      obtain ⟨ti, hti⟩ := Option.isSome_iff_exists.mp hi
      obtain ⟨a', ha'⟩ := Option.isSome_iff_exists.mp hrest
      simp [addItems, hm, hti, ha']

/-- The method returns whenever each rated source entity has a rating date. -/
theorem difference_isSome (dp : dataPair)
    (h : ∀ i ∈ dp.imdbList, i.rating.isSome → i.ratingDate.isSome) :
    (difference dp).isSome := by
  rw [difference_eq]
  obtain ⟨a, ha⟩ := Option.isSome_iff_exists.mp
    (addItems_isSome (dp.traktList.filterMap itemId) dp.imdbList h)
  simp [ha]

theorem addItems_map_itemId (temp : List String) (src : List imdbItem) (a : List traktItem)
    (h : addItems temp src = some a) :
    a.map itemId = (src.filter (fun i => decide (i.id ∉ temp))).map (fun i => some i.id) := by
  have h2 := addItems_forall₂ temp src a h
  generalize src.filter (fun i => decide (i.id ∉ temp)) = l at h2
  clear h
  induction h2 with
  | nil => rfl
  | cons hx _ ih => simp [newTraktItem_itemId _ _ hx, ih]

theorem mem_removeItems (temp : List String) (tl : List traktItem) (t : traktItem) :
    t ∈ removeItems temp tl ↔ t ∈ tl ∧ ∃ id, itemId t = some id ∧ id ∉ temp := by
  unfold removeItems
  rw [List.mem_filter]
  cases itemId t with
  | none => simp
  | some id => simp

theorem removeItems_eq_filter (il : List imdbItem) (tl : List traktItem) :
    removeItems (il.map (fun i => i.id)) tl =
      tl.filter (fun t => decide
        ((t.Type_ = "movie" ∨ t.Type_ = "show" ∨ t.Type_ = "episode") ∧
          ∀ i ∈ il, itemId t ≠ some i.id)) := by
  unfold removeItems
  apply List.filter_congr
  intro t _
  by_cases h1 : t.Type_ = "movie"
  · simp [itemId, h1, eq_comm]
  · by_cases h2 : t.Type_ = "show"
    · simp [itemId, h1, h2, eq_comm]
    · by_cases h3 : t.Type_ = "episode"
      · simp [itemId, h1, h2, h3, eq_comm]
      · simp [itemId, h1, h2, h3]

theorem addItems_eq_nil_of_mem (temp : List String) (src : List imdbItem)
    (h : ∀ i ∈ src, i.id ∈ temp) : addItems temp src = some [] := by
  induction src with
  | nil => rfl
  | cons i rest ih =>
    simp only [addItems, h i (List.mem_cons_self _ _), if_true]
    exact ih (fun j hj => h j (List.mem_cons_of_mem _ hj))

theorem removeItems_eq_nil_of_mem (temp : List String) (tl : List traktItem)
    (h : ∀ k ∈ tl.filterMap itemId, k ∈ temp) : removeItems temp tl = [] := by
  apply List.eq_nil_iff_forall_not_mem.mpr
  intro t ht
  obtain ⟨htl, id, hid, hnot⟩ := (mem_removeItems temp tl t).mp ht
  exact hnot (h id (List.mem_filterMap.mpr ⟨t, htl, hid⟩))

/-- A pair whose source ids and recognised destination ids form the same set has
the empty map as its difference. -/
theorem difference_of_same_ids (dp : dataPair)
    (h : ∀ k : String, k ∈ dp.imdbList.map (fun i => i.id) ↔
      k ∈ dp.traktList.filterMap itemId) :
    difference dp = some [] := by
  rw [difference_eq]
  have ha : addItems (dp.traktList.filterMap itemId) dp.imdbList = some [] :=
    addItems_eq_nil_of_mem _ _
      (fun i hi => (h i.id).mp (List.mem_map.mpr ⟨i, hi, rfl⟩))
  have hr : removeItems (dp.imdbList.map (fun i => i.id)) dp.traktList = [] :=
    removeItems_eq_nil_of_mem _ _ (fun k hk => (h k).mpr hk)
  simp [ha, hr, Difference.extend_nil]

theorem filterMap_itemId_filter (tl : List traktItem) :
    (tl.filter (fun t => decide
      (t.Type_ = "movie" ∨ t.Type_ = "show" ∨ t.Type_ = "episode"))).filterMap itemId
      = tl.filterMap itemId := by
  induction tl with
  | nil => rfl
  | cons t rest ih =>
    by_cases h1 : t.Type_ = "movie"
    · simpa [List.filter_cons, List.filterMap_cons, itemId, h1] using ih
    · by_cases h2 : t.Type_ = "show"
      · simpa [List.filter_cons, List.filterMap_cons, itemId, h1, h2] using ih
      · by_cases h3 : t.Type_ = "episode"
        · simpa [List.filter_cons, List.filterMap_cons, itemId, h1, h2, h3] using ih
        · simpa [List.filter_cons, List.filterMap_cons, itemId, h1, h2, h3] using ih

theorem itemId_isSome_iff (t : traktItem) :
    (∃ id, itemId t = some id) ↔
      (t.Type_ = "movie" ∨ t.Type_ = "show" ∨ t.Type_ = "episode") := by
  by_cases h1 : t.Type_ = "movie"
  · simp [itemId, h1]
  · by_cases h2 : t.Type_ = "show"
    · simp [itemId, h1, h2]
    · by_cases h3 : t.Type_ = "episode"
      · simp [itemId, h1, h2, h3]
      · simp [itemId, h1, h2, h3]

theorem removeItems_filter (temp : List String) (tl : List traktItem) :
    removeItems temp (tl.filter (fun t => decide
      (t.Type_ = "movie" ∨ t.Type_ = "show" ∨ t.Type_ = "episode")))
      = removeItems temp tl := by
  induction tl with
  | nil => rfl
  | cons t rest ih =>
    unfold removeItems at ih ⊢
    by_cases h : t.Type_ = "movie" ∨ t.Type_ = "show" ∨ t.Type_ = "episode"
    · simp only [List.filter_cons, h, decide_True, if_true]
      rw [ih]
    · have hn : itemId t = none := by
        cases hid : itemId t with
        | none => rfl
        | some id => exact absurd ((itemId_isSome_iff t).mp ⟨id, hid⟩) h
      simp only [List.filter_cons, h, decide_False, hn]
      simpa using ih

/-! ## The additions and the removals -/

/-- C1: for every pair on which `difference` returns, the identifiers carried by
`diff["add"]` are the source identifiers, in source order, that are not the
extracted Imdb id of a destination entity of type movie, show or episode; so a
source entity whose id is absent there is in `add` and one whose id is present is
not. The method returns whenever every rated source entity has a rating date. -/
theorem difference_add_ids (dp : dataPair) :
    (∀ d : Difference, difference dp = some d →
      (d.index "add").map itemId =
          (dp.imdbList.filter
            (fun i => decide (i.id ∉ dp.traktList.filterMap itemId))).map
            (fun i => some i.id) ∧
      (∀ i ∈ dp.imdbList, i.id ∉ dp.traktList.filterMap itemId →
          some i.id ∈ (d.index "add").map itemId) ∧
      (∀ i ∈ dp.imdbList, i.id ∈ dp.traktList.filterMap itemId →
          some i.id ∉ (d.index "add").map itemId)) ∧
    ((∀ i ∈ dp.imdbList, i.rating.isSome → i.ratingDate.isSome) →
      (difference dp).isSome) := by
  refine ⟨fun d h => ?_, difference_isSome dp⟩
  have hids := addItems_map_itemId _ _ _ (difference_some dp d h).1
  refine ⟨hids, fun i hi hn => ?_, fun i hi hp => ?_⟩
  · rw [hids]
    exact List.mem_map.mpr ⟨i, List.mem_filter.mpr ⟨hi, by simpa using hn⟩, rfl⟩
  · rw [hids]
    intro hmem
    obtain ⟨j, hj, hji⟩ := List.mem_map.mp hmem
    have hj' := (List.mem_filter.mp hj).2
    simp only [Option.some.injEq] at hji
    rw [hji] at hj'
    simp [hp] at hj'

theorem difference_add_ids_witness :
    difference pairA = some diffA ∧
      (diffA.index "add").map itemId = [some "tt2"] ∧ (difference pairA).isSome :=
  ⟨by decide, ((difference_add_ids pairA).1 diffA (by decide)).1,
    (difference_add_ids pairA).2 (by decide)⟩

/-- C2: for every pair on which `difference` returns, `diff["remove"]` is the
destination list filtered, in order and with the entities unchanged, to the
entities of type movie, show or episode whose extracted Imdb id is the id of no
source entity. The method returns whenever every rated source entity has a rating
date. -/
theorem difference_remove_filter (dp : dataPair) :
    (∀ d : Difference, difference dp = some d →
      d.index "remove" =
        dp.traktList.filter (fun t => decide
          ((t.Type_ = "movie" ∨ t.Type_ = "show" ∨ t.Type_ = "episode") ∧
            ∀ i ∈ dp.imdbList, itemId t ≠ some i.id))) ∧
    ((∀ i ∈ dp.imdbList, i.rating.isSome → i.ratingDate.isSome) →
      (difference dp).isSome) := by
  refine ⟨fun d h => ?_, difference_isSome dp⟩
  rw [(difference_some dp d h).2, removeItems_eq_filter]

theorem difference_remove_filter_witness :
    difference pairA = some diffA ∧
      diffA.index "remove" = [ { Type_ := "show", Show := { Ids := { Imdb := "tt3" } } } ] ∧
      (difference pairA).isSome :=
  ⟨by decide, (difference_remove_filter pairA).1 diffA (by decide),
    (difference_remove_filter pairA).2 (by decide)⟩

/-- C3: for every pair on which `difference` returns, no identifier is both the id
carried by an item of `diff["add"]` and the id extracted from an item of
`diff["remove"]`. The method returns whenever every rated source entity has a
rating date. -/
theorem difference_add_remove_disjoint (dp : dataPair) :
    (∀ d : Difference, difference dp = some d →
      ∀ k : String, ¬ ((∃ a ∈ d.index "add", itemId a = some k) ∧
        (∃ r ∈ d.index "remove", itemId r = some k))) ∧
    ((∀ i ∈ dp.imdbList, i.rating.isSome → i.ratingDate.isSome) →
      (difference dp).isSome) := by
  refine ⟨fun d h k => ?_, difference_isSome dp⟩
  rintro ⟨⟨a, ha, hak⟩, ⟨r, hr, hrk⟩⟩
  have hs := difference_some dp d h
  have hids := addItems_map_itemId _ _ _ hs.1
  have hk : some k ∈ (d.index "add").map itemId := List.mem_map.mpr ⟨a, ha, hak⟩
  rw [hids] at hk
  obtain ⟨j, hj, hjk⟩ := List.mem_map.mp hk
  simp only [Option.some.injEq] at hjk
  rw [hs.2, mem_removeItems] at hr
  obtain ⟨_, id, hid, hnot⟩ := hr
  rw [hrk, Option.some.injEq] at hid
  subst hid
  exact hnot (List.mem_map.mpr ⟨j, (List.mem_filter.mp hj).1, hjk⟩)

theorem difference_add_remove_disjoint_witness :
    difference pairA = some diffA ∧
      ¬ ((∃ a ∈ diffA.index "add", itemId a = some "tt2") ∧
        (∃ r ∈ diffA.index "remove", itemId r = some "tt2")) ∧
      (difference pairA).isSome :=
  ⟨by decide, (difference_add_remove_disjoint pairA).1 diffA (by decide) "tt2",
    (difference_add_remove_disjoint pairA).2 (by decide)⟩

/-- C4: when the set of source identifiers equals the set of identifiers extracted
from the destination entities, `difference` returns, and both `diff["add"]` and
`diff["remove"]` are empty, whatever the other fields are. -/
theorem difference_noop_when_equal (dp : dataPair)
    (h : ∀ k : String, k ∈ dp.imdbList.map (fun i => i.id) ↔
      k ∈ dp.traktList.filterMap itemId) :
    ∃ d : Difference, difference dp = some d ∧ d.index "add" = [] ∧ d.index "remove" = [] :=
  ⟨[], difference_of_same_ids dp h, rfl, rfl⟩

theorem difference_noop_when_equal_witness :
    (pairB.imdbList.map (fun i => i.id) = ["tt1"] ∧
      pairB.traktList.filterMap itemId = ["tt1"]) ∧
    ∃ d : Difference, difference pairB = some d ∧ d.index "add" = [] ∧
      d.index "remove" = [] :=
  ⟨by decide, difference_noop_when_equal pairB (fun k => by simp [pairB, itemId])⟩

/-- C5: if `difference` returns `d` on a pair and the destination list is replaced
by itself with the entities of `d["remove"]` deleted and those of `d["add"]`
appended, then `difference` returns on the new pair, with an empty `add` and an
empty `remove`. The first run returns whenever every rated source entity has a
rating date. -/
theorem difference_idempotent (dp : dataPair) :
    (∀ d : Difference, difference dp = some d →
      ∃ d' : Difference, difference (applyDifference dp d) = some d' ∧
        d'.index "add" = [] ∧ d'.index "remove" = []) ∧
    ((∀ i ∈ dp.imdbList, i.rating.isSome → i.ratingDate.isSome) →
      (difference dp).isSome) := by
  refine ⟨fun d h => ?_, difference_isSome dp⟩
  have hs := difference_some dp d h
  have hids := addItems_map_itemId _ _ _ hs.1
  refine ⟨[], difference_of_same_ids _ (fun k => ?_), rfl, rfl⟩
  simp only [applyDifference, List.filterMap_append, List.mem_append]
  constructor
  · intro hk
    by_cases hd : k ∈ dp.traktList.filterMap itemId
    · left
      obtain ⟨t, ht, htk⟩ := List.mem_filterMap.mp hd
      refine List.mem_filterMap.mpr ⟨t, List.mem_filter.mpr ⟨ht, ?_⟩, htk⟩
      simp only [decide_eq_true_eq]
      intro hrem
      rw [hs.2, mem_removeItems] at hrem
      obtain ⟨_, id, hid, hnot⟩ := hrem
      rw [htk, Option.some.injEq] at hid
      exact hnot (hid ▸ hk)
    · right
      obtain ⟨i, hi, hik⟩ := List.mem_map.mp hk
      have hmem : some k ∈ (d.index "add").map itemId := by
        rw [hids]
        refine List.mem_map.mpr ⟨i, List.mem_filter.mpr ⟨hi, ?_⟩, by rw [hik]⟩
        simpa [hik] using hd
      obtain ⟨a, ha, hak⟩ := List.mem_map.mp hmem
      exact List.mem_filterMap.mpr ⟨a, ha, hak⟩
  · rintro (hk | hk)
    · obtain ⟨t, ht, htk⟩ := List.mem_filterMap.mp hk
      obtain ⟨htl, hnr⟩ := List.mem_filter.mp ht
      simp only [decide_eq_true_eq] at hnr
      by_contra hsrc
      exact hnr (by rw [hs.2, mem_removeItems]; exact ⟨htl, k, htk, hsrc⟩)
    · obtain ⟨a, ha, hak⟩ := List.mem_filterMap.mp hk
      have hmem : some k ∈ (d.index "add").map itemId := List.mem_map.mpr ⟨a, ha, hak⟩
      rw [hids] at hmem
      obtain ⟨j, hj, hjk⟩ := List.mem_map.mp hmem
      simp only [Option.some.injEq] at hjk
      exact List.mem_map.mpr ⟨j, (List.mem_filter.mp hj).1, hjk⟩

theorem difference_idempotent_witness :
    difference pairC = some diffC ∧
      (applyDifference pairC diffC).traktList
        = [ { Type_ := "movie", Movie := { Ids := { Imdb := "tt1" } } } ] ∧
      (∃ d' : Difference, difference (applyDifference pairC diffC) = some d' ∧
        d'.index "add" = [] ∧ d'.index "remove" = []) ∧
      (difference pairC).isSome :=
  ⟨by decide, by decide, (difference_idempotent pairC).1 diffC (by decide),
    (difference_idempotent pairC).2 (by decide)⟩

/-- C6: a destination entity whose type is none of movie, show, episode contributes
to neither output: `difference` gives the same result (the same `add` and `remove`,
or the same panic) on the pair with all such entities deleted; no such entity is in
`remove`; and a source entity whose id is carried by recognised destination
entities of no kind is in `add`, whatever the unrecognised entities hold. -/
theorem difference_skip_unrecognized (dp : dataPair) :
    difference dp =
      difference { dp with
        traktList := dp.traktList.filter (fun t => decide
          (t.Type_ = "movie" ∨ t.Type_ = "show" ∨ t.Type_ = "episode")) } ∧
    (∀ d : Difference, difference dp = some d →
      (∀ t ∈ d.index "remove", t.Type_ = "movie" ∨ t.Type_ = "show" ∨ t.Type_ = "episode") ∧
      (∀ i ∈ dp.imdbList,
        (∀ t ∈ dp.traktList, t.Type_ = "movie" ∨ t.Type_ = "show" ∨ t.Type_ = "episode" →
          itemId t ≠ some i.id) →
        ∃ a ∈ d.index "add", itemId a = some i.id)) ∧
    ((∀ i ∈ dp.imdbList, i.rating.isSome → i.ratingDate.isSome) →
      (difference dp).isSome) := by
  refine ⟨?_, fun d h => ⟨fun t ht => ?_, fun i hi hno => ?_⟩, difference_isSome dp⟩
  · rw [difference_eq, difference_eq]
    simp only [filterMap_itemId_filter, removeItems_filter]
  · rw [(difference_some dp d h).2, mem_removeItems] at ht
    obtain ⟨_, id, hid, _⟩ := ht
    exact (itemId_isSome_iff t).mp ⟨id, hid⟩
  · have hids := addItems_map_itemId _ _ _ (difference_some dp d h).1
    have hmem : some i.id ∈ (d.index "add").map itemId := by
      rw [hids]
      refine List.mem_map.mpr ⟨i, List.mem_filter.mpr ⟨hi, ?_⟩, rfl⟩
      simp only [decide_eq_true_eq]
      intro hin
      obtain ⟨t, ht, hti⟩ := List.mem_filterMap.mp hin
      exact hno t ht ((itemId_isSome_iff t).mp ⟨_, hti⟩) hti
    obtain ⟨a, ha, hak⟩ := List.mem_map.mp hmem
    exact ⟨a, ha, hak⟩

theorem difference_skip_unrecognized_witness :
    difference pairA = some diffA ∧
      difference { pairA with traktList := pairA.traktList.take 2 } = some diffA ∧
      (∃ a ∈ diffA.index "add", itemId a = some "tt2") ∧
      (difference pairA).isSome :=
  ⟨by decide, by decide,
    ((difference_skip_unrecognized pairA).2.1 diffA (by decide)).2
      { id := "tt2", titleType := "tvSeries", rating := some 8,
        ratingDate := some ⟨"2020-01-02 03:04:05 +0000 UTC"⟩ } (by decide) (by decide),
    (difference_skip_unrecognized pairA).2.2 (by decide)⟩

/-! ## The shape of the additions -/

theorem newTraktItem_categoryMapped (i : imdbItem) (t : traktItem)
    (h : newTraktItem i = some t) : categoryMapped i t := by
  unfold newTraktItem at h
  unfold categoryMapped
  cases hr : i.rating with
  | none =>
    simp only [hr] at h
    split_ifs at h <;> simp only [Option.some.injEq] at h <;> subst h <;> simp [*]
  | some r =>
    cases hd : i.ratingDate with
    | none => simp [hr, hd] at h
    | some dt =>
      simp only [hr, hd] at h
      split_ifs at h <;> simp only [Option.some.injEq] at h <;> subst h <;> simp [*]

theorem newTraktItem_ratingCarried (i : imdbItem) (t : traktItem)
    (h : newTraktItem i = some t) : ratingCarried i t := by
  unfold newTraktItem at h
  unfold ratingCarried
  cases hr : i.rating with
  | none =>
    simp only [hr] at h
    split_ifs at h <;> simp only [Option.some.injEq] at h <;> subst h <;> simp [namedSpec]
  | some r =>
    cases hd : i.ratingDate with
    | none => simp [hr, hd] at h
    | some dt =>
      simp only [hr, hd] at h
      split_ifs at h <;> simp only [Option.some.injEq] at h <;> subst h <;> simp [namedSpec]

/-- C7: for every pair on which `difference` returns, the items of `diff["add"]`
correspond one to one, in order, to the source entities whose id is not a recognised
destination id, each item having the type that the category table gives for the
titleType of its source entity (movie for an unknown or empty titleType) and the
source id in the sub-record named by that type. The method returns whenever every
rated source entity has a rating date. -/
theorem difference_add_category (dp : dataPair) :
    (∀ d : Difference, difference dp = some d →
      List.Forall₂ categoryMapped
        (dp.imdbList.filter (fun i => decide (i.id ∉ dp.traktList.filterMap itemId)))
        (d.index "add")) ∧
    ((∀ i ∈ dp.imdbList, i.rating.isSome → i.ratingDate.isSome) →
      (difference dp).isSome) := by
  refine ⟨fun d h => ?_, difference_isSome dp⟩
  exact (addItems_forall₂ _ _ _ (difference_some dp d h).1).imp
    (fun i t hit => newTraktItem_categoryMapped i t hit)

theorem difference_add_category_witness :
    difference pairD = some diffD ∧
      List.Forall₂ categoryMapped
        (pairD.imdbList.filter (fun i => decide (i.id ∉ pairD.traktList.filterMap itemId)))
        (diffD.index "add") ∧
      (difference pairD).isSome :=
  ⟨by decide, (difference_add_category pairD).1 diffD (by decide),
    (difference_add_category pairD).2 (by decide)⟩

/-- C8: for every pair on which `difference` returns, each item of `diff["add"]`
carries the rating of the source entity it is built from: with a rating, the named
sub-record has that rating and, as `RatedAt`, the UTC string of the rating date, and
`WatchedAt` is the same string; without a rating, `Rating` is 0 and `RatedAt` and
`WatchedAt` are empty. The method returns whenever every rated source entity has a
rating date. -/
theorem difference_add_rating (dp : dataPair) :
    (∀ d : Difference, difference dp = some d →
      List.Forall₂ ratingCarried
        (dp.imdbList.filter (fun i => decide (i.id ∉ dp.traktList.filterMap itemId)))
        (d.index "add")) ∧
    ((∀ i ∈ dp.imdbList, i.rating.isSome → i.ratingDate.isSome) →
      (difference dp).isSome) := by
  refine ⟨fun d h => ?_, difference_isSome dp⟩
  exact (addItems_forall₂ _ _ _ (difference_some dp d h).1).imp
    (fun i t hit => newTraktItem_ratingCarried i t hit)

theorem difference_add_rating_witness :
    difference pairE = some diffE ∧
      List.Forall₂ ratingCarried
        (pairE.imdbList.filter (fun i => decide (i.id ∉ pairE.traktList.filterMap itemId)))
        (diffE.index "add") ∧
      (difference pairE).isSome :=
  ⟨by decide, (difference_add_rating pairE).1 diffE (by decide),
    (difference_add_rating pairE).2 (by decide)⟩

/-! ## Repeated source identifiers -/

theorem count_filter_map_id (S : List String) (src : List imdbItem) (k : String) :
    ((src.filter (fun i => decide (i.id ∉ S))).map (fun i => some i.id)).count (some k)
      = if k ∈ S then 0 else (src.map (fun i => i.id)).count k := by
  induction src with
  | nil => simp
  | cons i rest ih =>
    by_cases hS : i.id ∈ S
    · by_cases hk : i.id = k
      · subst hk
        simp [List.filter_cons, hS] at ih ⊢
        simpa [hS] using ih
      · simp only [List.filter_cons, hS, not_true_eq_false, decide_False, List.map_cons,
          List.count_cons, beq_iff_eq, hk, if_false, add_zero]
        simpa using ih
    · by_cases hk : i.id = k
      · subst hk
        simp [List.filter_cons, hS, List.count_cons] at ih ⊢
        simpa [hS] using ih
      · simp only [List.filter_cons, hS, not_false_eq_true, decide_True, if_true, List.map_cons,
          List.count_cons, beq_iff_eq, Option.some.injEq, hk, if_false, add_zero]
        simpa using ih

/-- C9, as stated, fails: on a source list that names tt1 twice `difference` returns
an `add` list whose two items carry the same identifier. -/
theorem difference_add_duplicates :
    difference pairF = some diffF ∧ ¬ ((diffF.index "add").map itemId).Nodup := by
  decide

/-- C9, amended: for every pair on which `difference` returns, an identifier occurs
in `diff["add"]` as often as it occurs in the source list when no recognised
destination entity carries it, and not at all otherwise; so no two items of `add`
carry the same identifier whenever no two source entities do. The method returns
whenever every rated source entity has a rating date. -/
theorem difference_add_count (dp : dataPair) :
    (∀ d : Difference, difference dp = some d →
      (∀ k : String, ((d.index "add").map itemId).count (some k) =
        if k ∈ dp.traktList.filterMap itemId then 0
        else (dp.imdbList.map (fun i => i.id)).count k) ∧
      ((dp.imdbList.map (fun i => i.id)).Nodup → ((d.index "add").map itemId).Nodup)) ∧
    ((∀ i ∈ dp.imdbList, i.rating.isSome → i.ratingDate.isSome) →
      (difference dp).isSome) := by
  refine ⟨fun d h => ?_, difference_isSome dp⟩
  have hids := addItems_map_itemId _ _ _ (difference_some dp d h).1
  refine ⟨fun k => ?_, fun hnd => ?_⟩
  · rw [hids]
    exact count_filter_map_id _ _ k
  · rw [hids]
    have hsub : ((dp.imdbList.filter
        (fun i => decide (i.id ∉ dp.traktList.filterMap itemId))).map (fun i => i.id)).Nodup :=
      hnd.sublist ((List.filter_sublist _).map _)
    have hmap := hsub.map (Option.some_injective String)
    simpa [List.map_map, Function.comp_def] using hmap

theorem difference_add_count_witness :
    difference pairA = some diffA ∧
      ((diffA.index "add").map itemId).count (some "tt2") = 1 ∧
      ((diffA.index "add").map itemId).Nodup ∧
      (difference pairA).isSome :=
  ⟨by decide, ((difference_add_count pairA).1 diffA (by decide)).1 "tt2",
    ((difference_add_count pairA).1 diffA (by decide)).2 (by decide),
    (difference_add_count pairA).2 (by decide)⟩

/-! ## The panic -/

/-- The method returns exactly when every source entity that is to be added and has
a rating also has a rating date. -/
theorem difference_isSome_iff (dp : dataPair) :
    (difference dp).isSome ↔
      ∀ i ∈ dp.imdbList, i.id ∉ dp.traktList.filterMap itemId →
        i.rating.isSome → i.ratingDate.isSome := by
  rw [difference_eq, Option.isSome_map']
  generalize dp.traktList.filterMap itemId = temp
  induction dp.imdbList with
  | nil => simp [addItems]
  | cons i rest ih =>
    by_cases hm : i.id ∈ temp
    · simp [addItems, hm, ih]
    · cases hr : i.rating with
      | none =>
        have hn : (newTraktItem i).isSome := newTraktItem_isSome i (by simp [hr])
        obtain ⟨ti, hti⟩ := Option.isSome_iff_exists.mp hn
        simp [addItems, hm, hti, hr, ih]
      | some r =>
        cases hd : i.ratingDate with
        | none =>
          have hn : newTraktItem i = none := by simp [newTraktItem, hr, hd]
          simp [addItems, hm, hn, hr, hd]
        | some dt =>
          have hn : (newTraktItem i).isSome := newTraktItem_isSome i (by simp [hd])
          obtain ⟨ti, hti⟩ := Option.isSome_iff_exists.mp hn
          simp [addItems, hm, hti, hr, hd, ih]

/-- C10 fails on the code: on a pair whose only source entity has a rating and a nil
rating date, and whose destination list is empty, `difference` does not return (the
dereference of the rating date at line 167 panics). -/
theorem difference_panics_on_nil_ratingDate : difference pairG = none := by
  decide

/-! ## The list phase -/

theorem syncListsRemove_eq (list : dataPair) (d : Difference) (trace : List traktCall) :
    syncListsRemove list d trace = trace ++ syncListsRemove list d [] := by
  unfold syncListsRemove
  split_ifs <;> simp

theorem syncListsBody_eq (list : dataPair) (trace : List traktCall) :
    syncListsBody list trace = (difference list).map (fun d => trace ++ pairCalls list d) := by
  unfold syncListsBody
  cases hd : difference list with
  | none => rfl
  | some d =>
    simp only [Option.map_some', pairCalls]
    by_cases ha : d.index "add" = []
    · simp [ha, syncListsRemove_eq list d trace]
    · have hpos : (d.index "add").length > 0 := List.length_pos.mpr ha
      by_cases hw : list.isWatchlist = true
      · simp [ha, hpos, hw]
      · simp [ha, hpos, hw, syncListsRemove_eq list d (trace ++ _)]

/-- The first loop issues, pair after pair, the calls of each pair. -/
theorem syncListsLoop_some (lists : List dataPair) (trace t' : List traktCall)
    (h : syncListsLoop lists trace = some t') :
    ∃ segs : List (List traktCall),
      t' = trace ++ segs.flatten ∧
      List.Forall₂ (fun list seg => ∃ d, difference list = some d ∧ seg = pairCalls list d)
        lists segs := by
  induction lists generalizing trace with
  | nil =>
    simp only [syncListsLoop, Option.some.injEq] at h
    exact ⟨[], by simp [h], List.Forall₂.nil⟩
  | cons list rest ih =>
    simp only [syncListsLoop, syncListsBody_eq] at h
    cases hd : difference list with
    | none => simp [hd] at h
    | some d =>
      simp only [hd, Option.map_some'] at h
      obtain ⟨segs, ht, hf⟩ := ih _ h
      exact ⟨pairCalls list d :: segs, by simp [ht], List.Forall₂.cons ⟨d, hd, rfl⟩ hf⟩

theorem syncListsLoop_isSome (lists : List dataPair) (trace : List traktCall)
    (h : ∀ list ∈ lists, ∀ i ∈ list.imdbList, i.rating.isSome → i.ratingDate.isSome) :
    (syncListsLoop lists trace).isSome := by
  induction lists generalizing trace with
  | nil => rfl
  | cons list rest ih =>
    obtain ⟨d, hd⟩ := Option.isSome_iff_exists.mp
      (difference_isSome list (h list (List.mem_cons_self _ _)))
    simp only [syncListsLoop, syncListsBody_eq, hd, Option.map_some']
    exact ih _ (fun l hl => h l (List.mem_cons_of_mem _ hl))

theorem listRemoveLoop_eq (lists : List dataPair) (tls : List traktList)
    (trace : List traktCall) :
    listRemoveLoop lists tls trace =
      trace ++ (tls.filter (fun tl => !contains lists tl.Name)).map
        (fun tl => traktCall.listRemove tl.Ids.Slug) := by
  induction tls generalizing trace with
  | nil => simp [listRemoveLoop]
  | cons tl rest ih =>
    by_cases hc : contains lists tl.Name = true
    · simp [listRemoveLoop, hc, ih, List.filter_cons]
    · simp [listRemoveLoop, hc, ih, List.filter_cons]

theorem contains_iff (dps : List dataPair) (name : String) :
    contains dps name = true ↔ ∃ dp ∈ dps, dp.imdbListName = name := by
  induction dps with
  | nil => simp [contains]
  | cons dp rest ih =>
    by_cases h : dp.imdbListName = name
    · simp [contains, h]
    · simp [contains, h, ih]

theorem filter_not_contains (lists : List dataPair) (tls : List traktList) :
    tls.filter (fun tl => !contains lists tl.Name) =
      tls.filter (fun tl => decide (∀ dp ∈ lists, dp.imdbListName ≠ tl.Name)) := by
  apply List.filter_congr
  intro tl _
  by_cases hc : contains lists tl.Name = true
  · have := (contains_iff lists tl.Name).mp hc
    simpa [hc] using this
  · have hn : ¬ ∃ dp ∈ lists, dp.imdbListName = tl.Name :=
      fun he => hc ((contains_iff lists tl.Name).mpr he)
    simp only [Bool.not_eq_true] at hc
    simpa [hc] using hn

theorem syncLists_isSome (u : user) (tc : traktClient) (trace : List traktCall)
    (h : ∀ list ∈ u.lists, ∀ i ∈ list.imdbList, i.rating.isSome → i.ratingDate.isSome) :
    (syncLists u tc trace).isSome := by
  obtain ⟨t1, ht1⟩ := Option.isSome_iff_exists.mp (syncListsLoop_isSome u.lists trace h)
  simp [syncLists, ht1]

/-- The whole trace of `syncLists`: the calls of the pairs, then `listsGet`, then one
`listRemove` for every destination list that `contains` does not find. -/
theorem syncLists_some (u : user) (tc : traktClient) (trace t' : List traktCall)
    (h : syncLists u tc trace = some t') :
    ∃ segs : List (List traktCall),
      List.Forall₂ (fun list seg => ∃ d, difference list = some d ∧ seg = pairCalls list d)
        u.lists segs ∧
      t' = trace ++ segs.flatten ++
        traktCall.listsGet (tc.listsGet (trace ++ segs.flatten)) ::
          ((tc.listsGet (trace ++ segs.flatten)).filter
            (fun tl => !contains u.lists tl.Name)).map
            (fun tl => traktCall.listRemove tl.Ids.Slug) := by
  unfold syncLists at h
  cases h1 : syncListsLoop u.lists trace with
  | none => simp [h1] at h
  | some t1 =>
    obtain ⟨segs, ht1, hf⟩ := syncListsLoop_some _ _ _ h1
    simp only [h1, Option.some.injEq, listRemoveLoop_eq] at h
    subst ht1
    exact ⟨segs, hf, by rw [← h]; simp⟩

theorem forall₂_exists_left {α β : Type} {R : α → β → Prop} {l₁ : List α} {l₂ : List β}
    (h : List.Forall₂ R l₁ l₂) : ∀ b ∈ l₂, ∃ a ∈ l₁, R a b := by
  induction h with
  | nil => simp
  | cons hab _ ih =>
    intro b hb
    rcases List.mem_cons.mp hb with rfl | hb
    · exact ⟨_, List.mem_cons_self _ _, hab⟩
    · obtain ⟨a, ha, hr⟩ := ih b hb
      exact ⟨a, List.mem_cons_of_mem _ ha, hr⟩

theorem pairCalls_routed (list : dataPair) (d : Difference) :
    routedCalls list d (pairCalls list d) := by
  unfold routedCalls pairCalls syncListsRemove
  by_cases ha : d.index "add" = []
  · by_cases hr : (d.index "remove").length > 0
    · by_cases hw : list.isWatchlist = true
      · simp [ha, hr, hw]
      · simp [ha, hr, hw]
    · simp [ha, hr]
  · by_cases hr : (d.index "remove").length > 0
    · by_cases hw : list.isWatchlist = true
      · simp [ha, hr, hw, isAddCall]
      · simp [ha, hr, hw, isAddCall, List.filter_cons]
    · by_cases hw : list.isWatchlist = true
      · simp [ha, hr, hw, isAddCall]
      · simp [ha, hr, hw, isAddCall, List.filter_cons]

theorem pairCalls_isItemCall (list : dataPair) (d : Difference) :
    ∀ c ∈ pairCalls list d, isItemCall c = true := by
  unfold pairCalls syncListsRemove
  intro c hc
  split_ifs at hc <;> simp at hc <;> (try rcases hc with rfl | rfl) <;> rfl

/-- C11 fails on the code: for the watchlist with tt1 to add and tt2 to remove,
`syncLists` issues `watchlistItemsAdd` and then, by the `continue` of line 76, goes
on to the next pair: no `watchlistItemsRemove` is issued although `remove` is not
empty. For the same content in a list that is not the watchlist, the add call and
the remove call are both issued. -/
theorem syncLists_watchlist_remove_skipped :
    difference pairW = some diffW ∧
    diffW.index "remove" = [ { Type_ := "movie", Movie := { Ids := { Imdb := "tt2" } } } ] ∧
    syncLists userW clientA [] =
      some [ traktCall.watchlistItemsAdd (diffW.index "add"),
             traktCall.listsGet (clientA.listsGet []),
             traktCall.listRemove "foo", traktCall.listRemove "bar" ] ∧
    syncListsBody pairL [] =
      some [ traktCall.listItemsAdd "foo" (diffW.index "add"),
             traktCall.listItemsRemove "foo" (diffW.index "remove") ] := by
  decide

/-- C12: in every run of `syncLists` that returns, the trace is the calls of the
pairs, pair after pair, followed by calls that touch no list item; while the
watchlist is processed no `listItemsAdd` or `listItemsRemove` is issued, while
another pair is processed no `watchlistItemsAdd` or `watchlistItemsRemove` is issued
and every generic call carries the `traktListId` of the pair, and a non-empty `add`
gives exactly one add call, of the kind of the pair, carrying `add`. The run returns
whenever every rated source entity of every pair has a rating date. -/
theorem syncLists_routing_exclusive (u : user) (tc : traktClient) (trace : List traktCall) :
    (∀ t' : List traktCall, syncLists u tc trace = some t' →
      ∃ (segs : List (List traktCall)) (tail : List traktCall),
        t' = trace ++ segs.flatten ++ tail ∧
        (∀ c ∈ tail, isItemCall c = false) ∧
        List.Forall₂
          (fun list seg => ∃ d, difference list = some d ∧ routedCalls list d seg)
          u.lists segs) ∧
    ((∀ list ∈ u.lists, ∀ i ∈ list.imdbList, i.rating.isSome → i.ratingDate.isSome) →
      (syncLists u tc trace).isSome) := by
  refine ⟨fun t' h => ?_, syncLists_isSome u tc trace⟩
  obtain ⟨segs, hf, ht⟩ := syncLists_some u tc trace t' h
  refine ⟨segs, _, ht, ?_, hf.imp ?_⟩
  · intro c hc
    rcases List.mem_cons.mp hc with rfl | hc
    · rfl
    · obtain ⟨tl, _, rfl⟩ := List.mem_map.mp hc
      rfl
  · rintro list seg ⟨d, hd, rfl⟩
    exact ⟨d, hd, pairCalls_routed list d⟩

theorem syncLists_routing_exclusive_witness :
    syncLists userL clientA [] = some traceL ∧
    (∃ (segs : List (List traktCall)) (tail : List traktCall),
        traceL = [] ++ segs.flatten ++ tail ∧
        (∀ c ∈ tail, isItemCall c = false) ∧
        List.Forall₂
          (fun list seg => ∃ d, difference list = some d ∧ routedCalls list d seg)
          userL.lists segs) ∧
    (syncLists userL clientA []).isSome :=
  ⟨by decide, (syncLists_routing_exclusive userL clientA []).1 traceL (by decide),
    (syncLists_routing_exclusive userL clientA []).2 (by decide)⟩

/-- C15: in every run of `syncLists` that returns, the calls for the pairs are
followed by `listsGet` and then by one `listRemove(slug)` for exactly the destination
lists, in the order `listsGet` returned them, whose name is the `imdbListName` of no
pair; and `contains(dps, name)` is true if and only if some element of `dps` has
`imdbListName` equal to `name`. The run returns whenever every rated source entity of
every pair has a rating date. -/
theorem syncLists_orphan_cleanup (u : user) (tc : traktClient) (trace : List traktCall) :
    (∀ t' : List traktCall, syncLists u tc trace = some t' →
      ∃ pre : List traktCall,
        (∀ c ∈ pre, isItemCall c = true) ∧
        t' = trace ++ pre ++
          traktCall.listsGet (tc.listsGet (trace ++ pre)) ::
            ((tc.listsGet (trace ++ pre)).filter
              (fun tl => decide (∀ dp ∈ u.lists, dp.imdbListName ≠ tl.Name))).map
              (fun tl => traktCall.listRemove tl.Ids.Slug)) ∧
    (∀ (dps : List dataPair) (name : String),
      contains dps name = true ↔ ∃ dp ∈ dps, dp.imdbListName = name) ∧
    ((∀ list ∈ u.lists, ∀ i ∈ list.imdbList, i.rating.isSome → i.ratingDate.isSome) →
      (syncLists u tc trace).isSome) := by
  refine ⟨fun t' h => ?_, contains_iff, syncLists_isSome u tc trace⟩
  obtain ⟨segs, hf, ht⟩ := syncLists_some u tc trace t' h
  refine ⟨segs.flatten, ?_, ?_⟩
  · intro c hc
    obtain ⟨seg, hseg, hcs⟩ := List.mem_flatten.mp hc
    obtain ⟨list, _, d, _, rfl⟩ := forall₂_exists_left hf seg hseg
    exact pairCalls_isItemCall list d c hcs
  · rw [ht, filter_not_contains]

theorem syncLists_orphan_cleanup_witness :
    syncLists userL clientA [] = some traceL ∧
    (∃ pre : List traktCall,
        (∀ c ∈ pre, isItemCall c = true) ∧
        traceL = [] ++ pre ++
          traktCall.listsGet (clientA.listsGet ([] ++ pre)) ::
            ((clientA.listsGet ([] ++ pre)).filter
              (fun tl => decide (∀ dp ∈ userL.lists, dp.imdbListName ≠ tl.Name))).map
              (fun tl => traktCall.listRemove tl.Ids.Slug)) ∧
    (syncLists userL clientA []).isSome :=
  ⟨by decide, (syncLists_orphan_cleanup userL clientA []).1 traceL (by decide),
    (syncLists_orphan_cleanup userL clientA []).2.2 (by decide)⟩

/-! ## The ratings phase -/

theorem historyAddResults_length (tc : traktClient) (items : List traktItem)
    (trace : List traktCall) : (historyAddResults tc items trace).length = items.length := by
  induction items generalizing trace with
  | nil => rfl
  | cons ti rest ih => simp [historyAddResults, ih]

theorem historyRemoveResults_length (tc : traktClient) (items : List traktItem)
    (trace : List traktCall) :
    (historyRemoveResults tc items trace).length = items.length := by
  induction items generalizing trace with
  | nil => rfl
  | cons ti rest ih => simp [historyRemoveResults, ih]

theorem historyAddLoop_eq (tc : traktClient) (items : List traktItem)
    (trace : List traktCall) :
    historyAddLoop tc items trace =
      trace ++ addSegments items (historyAddResults tc items trace) := by
  induction items generalizing trace with
  | nil => simp [historyAddLoop, addSegments]
  | cons ti rest ih =>
    unfold addSegments at ih ⊢
    by_cases hh : tc.historyGet trace ti = []
    · simp [historyAddLoop, historyAddResults, hh, ih]
    · have hpos : (tc.historyGet trace ti).length > 0 := List.length_pos.mpr hh
      simp [historyAddLoop, historyAddResults, hh, hpos, ih]

theorem historyRemoveLoop_eq (tc : traktClient) (items : List traktItem)
    (trace : List traktCall) :
    historyRemoveLoop tc items trace =
      trace ++ removeSegments items (historyRemoveResults tc items trace) := by
  induction items generalizing trace with
  | nil => simp [historyRemoveLoop, removeSegments]
  | cons ti rest ih =>
    unfold removeSegments at ih ⊢
    by_cases hh : tc.historyGet trace ti = []
    · simp [historyRemoveLoop, historyRemoveResults, hh, ih]
    · have hlen : ¬ (tc.historyGet trace ti).length = 0 := by
        simpa [List.length_eq_zero] using hh
      simp [historyRemoveLoop, historyRemoveResults, hh, hlen, ih]

/-- The whole trace of `syncRatings`, with the results of the lookups. -/
theorem syncRatings_some (u : user) (tc : traktClient) (trace t' : List traktCall)
    (d : Difference) (hd : difference u.ratings = some d)
    (h : syncRatings u tc trace = some t') :
    ∃ ra rr : List (List traktItem),
      ra = historyAddResults tc (d.index "add")
        (trace ++ [traktCall.ratingsAdd (d.index "add")]) ∧
      rr = historyRemoveResults tc (d.index "remove")
        (trace ++
          (if d.index "add" = [] then []
           else traktCall.ratingsAdd (d.index "add") :: addSegments (d.index "add") ra) ++
          [traktCall.ratingsRemove (d.index "remove")]) ∧
      ra.length = (d.index "add").length ∧ rr.length = (d.index "remove").length ∧
      t' = trace ++
        (if d.index "add" = [] then []
         else traktCall.ratingsAdd (d.index "add") :: addSegments (d.index "add") ra) ++
        (if d.index "remove" = [] then []
         else traktCall.ratingsRemove (d.index "remove") ::
           removeSegments (d.index "remove") rr) := by
  unfold syncRatings at h
  simp only [hd, Option.some.injEq] at h
  refine ⟨_, _, rfl, rfl, historyAddResults_length tc _ _,
    historyRemoveResults_length tc _ _, ?_⟩
  rw [← h]
  by_cases ha : d.index "add" = []
  · by_cases hr : d.index "remove" = []
    · simp [ha, hr]
    · have hpos : (d.index "remove").length > 0 := List.length_pos.mpr hr
      simp [ha, hr, hpos, historyRemoveLoop_eq]
  · have hposa : (d.index "add").length > 0 := List.length_pos.mpr ha
    by_cases hr : d.index "remove" = []
    · simp [ha, hr, hposa, historyAddLoop_eq]
    · have hpos : (d.index "remove").length > 0 := List.length_pos.mpr hr
      simp [ha, hr, hposa, hpos, historyAddLoop_eq, historyRemoveLoop_eq]

theorem syncRatings_isSome (u : user) (tc : traktClient) (trace : List traktCall)
    (h : ∀ i ∈ u.ratings.imdbList, i.rating.isSome → i.ratingDate.isSome) :
    (syncRatings u tc trace).isSome := by
  obtain ⟨d, hd⟩ := Option.isSome_iff_exists.mp (difference_isSome u.ratings h)
  simp [syncRatings, hd]

theorem not_historyAdd_of_mem_removeSegments (items : List traktItem)
    (rs : List (List traktItem)) :
    ∀ c ∈ removeSegments items rs, ∀ l : List traktItem, c ≠ traktCall.historyAdd l := by
  intro c hc l
  unfold removeSegments at hc
  obtain ⟨p, _, hp⟩ := List.mem_flatMap.mp hc
  split_ifs at hp <;> simp at hp <;> (try rcases hp with rfl | rfl) <;> simp [*]

theorem not_historyRemove_of_mem_addSegments (items : List traktItem)
    (rs : List (List traktItem)) :
    ∀ c ∈ addSegments items rs, ∀ l : List traktItem, c ≠ traktCall.historyRemove l := by
  intro c hc l
  unfold addSegments at hc
  obtain ⟨p, _, hp⟩ := List.mem_flatMap.mp hc
  split_ifs at hp <;> simp at hp <;> (try rcases hp with rfl | rfl) <;> simp [*]

theorem filterMap_lookedUp_addSegments (items : List traktItem) (rs : List (List traktItem))
    (h : rs.length = items.length) : (addSegments items rs).filterMap lookedUp = items := by
  induction items generalizing rs with
  | nil => simp [addSegments]
  | cons ti rest ih =>
    cases rs with
    | nil => simp at h
    | cons r rs' =>
      have hl : rs'.length = rest.length := by simpa using h
      have := ih rs' hl
      unfold addSegments at this ⊢
      by_cases hr : r = []
      · simp [hr, lookedUp, List.filterMap_cons, this]
      · simp [hr, lookedUp, List.filterMap_cons, this]

theorem filterMap_lookedUp_removeSegments (items : List traktItem)
    (rs : List (List traktItem)) (h : rs.length = items.length) :
    (removeSegments items rs).filterMap lookedUp = items := by
  induction items generalizing rs with
  | nil => simp [removeSegments]
  | cons ti rest ih =>
    cases rs with
    | nil => simp at h
    | cons r rs' =>
      have hl : rs'.length = rest.length := by simpa using h
      have := ih rs' hl
      unfold removeSegments at this ⊢
      by_cases hr : r = []
      · simp [hr, lookedUp, List.filterMap_cons, this]
      · simp [hr, lookedUp, List.filterMap_cons, this]

/-- C13: in every run of `syncRatings` that returns, with `d` the ratings difference,
the batch `ratingsAdd` (issued when `add` is not empty) is followed, for the items X
of `add` in order, by the history lookup of X and then by exactly one `historyAdd`
carrying `[X]` when the lookup returned nothing, and by no call when it returned
something, the result of each lookup being what the client returns at that point; no
other `historyAdd` is issued in the run. The run returns whenever every rated source
entity has a rating date. -/
theorem syncRatings_history_add_gated (u : user) (tc : traktClient)
    (trace : List traktCall) :
    (∀ (d : Difference) (t' : List traktCall),
      difference u.ratings = some d → syncRatings u tc trace = some t' →
      ∃ (rs : List (List traktItem)) (rest : List traktCall),
        rs = historyAddResults tc (d.index "add")
          (trace ++ [traktCall.ratingsAdd (d.index "add")]) ∧
        rs.length = (d.index "add").length ∧
        t' = trace ++
          (if d.index "add" = [] then [] else [traktCall.ratingsAdd (d.index "add")]) ++
          addSegments (d.index "add") rs ++ rest ∧
        (∀ c ∈ rest, ∀ l : List traktItem, c ≠ traktCall.historyAdd l)) ∧
    ((∀ i ∈ u.ratings.imdbList, i.rating.isSome → i.ratingDate.isSome) →
      (syncRatings u tc trace).isSome) := by
  refine ⟨fun d t' hd h => ?_, syncRatings_isSome u tc trace⟩
  obtain ⟨ra, rr, hra, _, hla, _, ht⟩ := syncRatings_some u tc trace t' d hd h
  refine ⟨ra,
    (if d.index "remove" = [] then []
     else traktCall.ratingsRemove (d.index "remove") :: removeSegments (d.index "remove") rr),
    hra, hla, ?_, ?_⟩
  · rw [ht]
    by_cases ha : d.index "add" = []
    · simp [ha, addSegments]
    · simp [ha]
  · intro c hc l
    split_ifs at hc
    · simp at hc
    · rcases List.mem_cons.mp hc with rfl | hc
      · simp
      · exact not_historyAdd_of_mem_removeSegments _ _ c hc l

theorem syncRatings_history_add_gated_witness :
    difference userR.ratings = some diffW ∧
    syncRatings userR clientB [] = some traceR ∧
    (∃ (rs : List (List traktItem)) (rest : List traktCall),
        rs = historyAddResults clientB (diffW.index "add")
          ([] ++ [traktCall.ratingsAdd (diffW.index "add")]) ∧
        rs.length = (diffW.index "add").length ∧
        traceR = [] ++
          (if diffW.index "add" = [] then []
           else [traktCall.ratingsAdd (diffW.index "add")]) ++
          addSegments (diffW.index "add") rs ++ rest ∧
        (∀ c ∈ rest, ∀ l : List traktItem, c ≠ traktCall.historyAdd l)) ∧
    (syncRatings userR clientB []).isSome :=
  ⟨by decide, by decide,
    (syncRatings_history_add_gated userR clientB []).1 diffW traceR (by decide) (by decide),
    (syncRatings_history_add_gated userR clientB []).2 (by decide)⟩

/-- C14: in every run of `syncRatings` that returns, with `d` the ratings difference,
the run ends with the batch `ratingsRemove` (issued when `remove` is not empty)
followed, for the items X of `remove` in order, by the history lookup of X and then
by no call when the lookup returned nothing, and by exactly one `historyRemove`
carrying `[X]` when it returned something, the result of each lookup being what the
client returns at that point; no `historyRemove` is issued before. The run returns
whenever every rated source entity has a rating date. -/
theorem syncRatings_history_remove_gated (u : user) (tc : traktClient)
    (trace : List traktCall) :
    (∀ (d : Difference) (t' : List traktCall),
      difference u.ratings = some d → syncRatings u tc trace = some t' →
      ∃ (rs : List (List traktItem)) (pre : List traktCall),
        rs = historyRemoveResults tc (d.index "remove")
          (trace ++ pre ++ [traktCall.ratingsRemove (d.index "remove")]) ∧
        rs.length = (d.index "remove").length ∧
        t' = trace ++ pre ++
          (if d.index "remove" = [] then []
           else [traktCall.ratingsRemove (d.index "remove")]) ++
          removeSegments (d.index "remove") rs ∧
        (∀ c ∈ pre, ∀ l : List traktItem, c ≠ traktCall.historyRemove l)) ∧
    ((∀ i ∈ u.ratings.imdbList, i.rating.isSome → i.ratingDate.isSome) →
      (syncRatings u tc trace).isSome) := by
  refine ⟨fun d t' hd h => ?_, syncRatings_isSome u tc trace⟩
  obtain ⟨ra, rr, _, hrr, _, hlr, ht⟩ := syncRatings_some u tc trace t' d hd h
  refine ⟨rr,
    (if d.index "add" = [] then []
     else traktCall.ratingsAdd (d.index "add") :: addSegments (d.index "add") ra),
    hrr, hlr, ?_, ?_⟩
  · rw [ht]
    by_cases hr : d.index "remove" = []
    · simp [hr, removeSegments]
    · simp [hr]
  · intro c hc l
    split_ifs at hc
    · simp at hc
    · rcases List.mem_cons.mp hc with rfl | hc
      · simp
      · exact not_historyRemove_of_mem_addSegments _ _ c hc l

theorem syncRatings_history_remove_gated_witness :
    difference userR.ratings = some diffW ∧
    syncRatings userR clientB [] = some traceR ∧
    (∃ (rs : List (List traktItem)) (pre : List traktCall),
        rs = historyRemoveResults clientB (diffW.index "remove")
          ([] ++ pre ++ [traktCall.ratingsRemove (diffW.index "remove")]) ∧
        rs.length = (diffW.index "remove").length ∧
        traceR = [] ++ pre ++
          (if diffW.index "remove" = [] then []
           else [traktCall.ratingsRemove (diffW.index "remove")]) ++
          removeSegments (diffW.index "remove") rs ∧
        (∀ c ∈ pre, ∀ l : List traktItem, c ≠ traktCall.historyRemove l)) ∧
    (syncRatings userR clientB []).isSome :=
  ⟨by decide, by decide,
    (syncRatings_history_remove_gated userR clientB []).1 diffW traceR
      (by decide) (by decide),
    (syncRatings_history_remove_gated userR clientB []).2 (by decide)⟩

/-- C18: in every run of `syncRatings` that returns, with `d` the ratings difference,
the calls issued are, in this order: when `add` is not empty the single `ratingsAdd`
carrying `add` and then the lookups and `historyAdd` calls of the add side; when
`remove` is not empty the single `ratingsRemove` carrying `remove` and then the
lookups and `historyRemove` calls of the remove side; on each side the entities
looked up are the items of the list, once each and in order. The run returns
whenever every rated source entity has a rating date. -/
theorem syncRatings_order (u : user) (tc : traktClient) (trace : List traktCall) :
    (∀ (d : Difference) (t' : List traktCall),
      difference u.ratings = some d → syncRatings u tc trace = some t' →
      ∃ ra rr : List (List traktItem),
        t' = trace ++
          (if d.index "add" = [] then []
           else traktCall.ratingsAdd (d.index "add") :: addSegments (d.index "add") ra) ++
          (if d.index "remove" = [] then []
           else traktCall.ratingsRemove (d.index "remove") ::
             removeSegments (d.index "remove") rr) ∧
        (addSegments (d.index "add") ra).filterMap lookedUp = d.index "add" ∧
        (removeSegments (d.index "remove") rr).filterMap lookedUp = d.index "remove") ∧
    ((∀ i ∈ u.ratings.imdbList, i.rating.isSome → i.ratingDate.isSome) →
      (syncRatings u tc trace).isSome) := by
  refine ⟨fun d t' hd h => ?_, syncRatings_isSome u tc trace⟩
  obtain ⟨ra, rr, _, _, hla, hlr, ht⟩ := syncRatings_some u tc trace t' d hd h
  exact ⟨ra, rr, ht, filterMap_lookedUp_addSegments _ _ hla,
    filterMap_lookedUp_removeSegments _ _ hlr⟩

theorem syncRatings_order_witness :
    difference userR.ratings = some diffW ∧
    syncRatings userR clientB [] = some traceR ∧
    (∃ ra rr : List (List traktItem),
        traceR = [] ++
          (if diffW.index "add" = [] then []
           else traktCall.ratingsAdd (diffW.index "add") ::
             addSegments (diffW.index "add") ra) ++
          (if diffW.index "remove" = [] then []
           else traktCall.ratingsRemove (diffW.index "remove") ::
             removeSegments (diffW.index "remove") rr) ∧
        (addSegments (diffW.index "add") ra).filterMap lookedUp = diffW.index "add" ∧
        (removeSegments (diffW.index "remove") rr).filterMap lookedUp
          = diffW.index "remove") ∧
    (syncRatings userR clientB []).isSome :=
  ⟨by decide, by decide,
    (syncRatings_order userR clientB []).1 diffW traceR (by decide) (by decide),
    (syncRatings_order userR clientB []).2 (by decide)⟩

/-! ## The keys of the result and the shape of its additions -/

theorem keys_extend_extend (a r : List traktItem) :
    Difference.keys ((Difference.extend [] "add" a).extend "remove" r) =
      (if a = [] then [] else ["add"]) ++ (if r = [] then [] else ["remove"]) := by
  by_cases ha : a = []
  · by_cases hr : r = []
    · simp [ha, hr, Difference.extend, Difference.keys]
    · simp [ha, hr, Difference.extend, Difference.keys, Difference.assign]
  · by_cases hr : r = []
    · simp [ha, hr, Difference.extend, Difference.keys, Difference.assign]
    · simp [ha, hr, Difference.extend, Difference.keys, Difference.assign]

/-- C17, as stated, fails: on a pair with nothing to add and nothing to remove the
map that `difference` returns has no key at all. -/
theorem difference_keys_missing :
    ∃ d : Difference, difference pairB = some d ∧ d.keys = [] :=
  ⟨[], by decide, rfl⟩

/-- C17, amended: for every pair on which `difference` returns, the keys of the map
are "add" when at least one entity is to be added, followed by "remove" when at least
one is to be removed, and no other; a key is absent when its list is empty, and
indexing it then gives the empty list. The method returns whenever every rated
source entity has a rating date. -/
theorem difference_keys (dp : dataPair) :
    (∀ d : Difference, difference dp = some d →
      d.keys = (if d.index "add" = [] then [] else ["add"]) ++
        (if d.index "remove" = [] then [] else ["remove"])) ∧
    ((∀ i ∈ dp.imdbList, i.rating.isSome → i.ratingDate.isSome) →
      (difference dp).isSome) := by
  refine ⟨fun d h => ?_, difference_isSome dp⟩
  have hs := difference_some dp d h
  have he := difference_eq dp
  rw [h, hs.1, ← hs.2] at he
  simp only [Option.map_some', Option.some.injEq] at he
  conv_lhs => rw [he]
  exact keys_extend_extend _ _

theorem difference_keys_witness :
    difference pairA = some diffA ∧ diffA.keys = ["add", "remove"] ∧
    difference pairC = some diffC ∧ diffC.keys = ["add"] ∧
    (difference pairA).isSome :=
  ⟨by decide, (difference_keys pairA).1 diffA (by decide),
    by decide, (difference_keys pairC).1 diffC (by decide),
    (difference_keys pairA).2 (by decide)⟩

theorem newTraktItem_recognisable (i : imdbItem) (t : traktItem)
    (h : newTraktItem i = some t) : recognisable i t := by
  refine ⟨?_, newTraktItem_itemId i t h, ?_⟩
  · unfold newTraktItem at h
    cases hr : i.rating with
    | none =>
      simp only [hr] at h
      split_ifs at h <;> simp only [Option.some.injEq] at h <;> subst h <;> simp
    | some r =>
      cases hd : i.ratingDate with
      | none => simp [hr, hd] at h
      | some dt =>
        simp only [hr, hd] at h
        split_ifs at h <;> simp only [Option.some.injEq] at h <;> subst h <;> simp
  · unfold newTraktItem at h
    cases hr : i.rating with
    | none =>
      simp only [hr] at h
      split_ifs at h <;> simp only [Option.some.injEq] at h <;> subst h <;> simp
    | some r =>
      cases hd : i.ratingDate with
      | none => simp [hr, hd] at h
      | some dt =>
        simp only [hr, hd] at h
        split_ifs at h <;> simp only [Option.some.injEq] at h <;> subst h <;> simp

/-- C20: for every pair on which `difference` returns, the items of `diff["add"]`
correspond one to one, in order, to the source entities to be added; each has a type
among movie, show and episode, the id that the per-type rule of `difference` extracts
from it is the id of its source entity, and its two other sub-records are zero. The
method returns whenever every rated source entity has a rating date. -/
theorem difference_add_recognisable (dp : dataPair) :
    (∀ d : Difference, difference dp = some d →
      List.Forall₂ recognisable
        (dp.imdbList.filter (fun i => decide (i.id ∉ dp.traktList.filterMap itemId)))
        (d.index "add")) ∧
    ((∀ i ∈ dp.imdbList, i.rating.isSome → i.ratingDate.isSome) →
      (difference dp).isSome) := by
  refine ⟨fun d h => ?_, difference_isSome dp⟩
  exact (addItems_forall₂ _ _ _ (difference_some dp d h).1).imp
    (fun i t hit => newTraktItem_recognisable i t hit)

theorem difference_add_recognisable_witness :
    difference pairD = some diffD ∧
      List.Forall₂ recognisable
        (pairD.imdbList.filter (fun i => decide (i.id ∉ pairD.traktList.filterMap itemId)))
        (diffD.index "add") ∧
      (difference pairD).isSome :=
  ⟨by decide, (difference_add_recognisable pairD).1 diffD (by decide),
    (difference_add_recognisable pairD).2 (by decide)⟩

/-! ## A converged state -/

theorem syncListsLoop_of_converged (lists : List dataPair) (trace : List traktCall)
    (h : ∀ dp ∈ lists, converged dp) : syncListsLoop lists trace = some trace := by
  induction lists with
  | nil => rfl
  | cons list rest ih =>
    have hd : difference list = some [] :=
      difference_of_same_ids list (h list (List.mem_cons_self _ _))
    have hp : pairCalls list [] = [] := by
      simp [pairCalls, syncListsRemove, Difference.index]
    simp only [syncListsLoop, syncListsBody_eq, hd, Option.map_some', hp, List.append_nil]
    exact ih (fun dp hdp => h dp (List.mem_cons_of_mem _ hdp))

/-- C19: when every pair of the user and the ratings pair are converged, `syncLists`
returns and issues `listsGet` and the `listRemove` calls of the orphan lists only (no
call adds or removes a list item), and `syncRatings` returns without issuing any
call. -/
theorem sync_converged_writes_nothing (u : user) (tc : traktClient)
    (trace : List traktCall)
    (hl : ∀ dp ∈ u.lists, converged dp) (hr : converged u.ratings) :
    syncLists u tc trace =
      some (trace ++
        traktCall.listsGet (tc.listsGet trace) ::
          ((tc.listsGet trace).filter
            (fun tl => decide (∀ dp ∈ u.lists, dp.imdbListName ≠ tl.Name))).map
            (fun tl => traktCall.listRemove tl.Ids.Slug)) ∧
    syncRatings u tc trace = some trace := by
  constructor
  · have hloop := syncListsLoop_of_converged u.lists trace hl
    simp only [syncLists, hloop, listRemoveLoop_eq, filter_not_contains]
    simp
  · have hd : difference u.ratings = some [] := difference_of_same_ids u.ratings hr
    simp [syncRatings, hd, Difference.index]

theorem sync_converged_writes_nothing_witness :
    (∀ dp ∈ userC.lists, converged dp) ∧ converged userC.ratings ∧
    syncLists userC clientA [] =
      some [ traktCall.listsGet (clientA.listsGet []), traktCall.listRemove "bar" ] ∧
    syncRatings userC clientA [] = some [] :=
  have h1 : ∀ dp ∈ userC.lists, converged dp := fun dp hdp k => by
    have h : dp.imdbList = pairB.imdbList ∧ dp.traktList = pairB.traktList := by
      simp only [userC, List.mem_cons, List.mem_singleton, List.not_mem_nil, or_false] at hdp
      rcases hdp with rfl | rfl <;> exact ⟨rfl, rfl⟩
    rw [h.1, h.2]
    simp [pairB, itemId]
  have h2 : converged userC.ratings := fun k => by simp [userC, pairB, itemId]
  ⟨h1, h2, sync_converged_writes_nothing userC clientA [] h1 h2⟩

/-! ## `cleanupLists` -/

theorem take_set_succ (l : List dataPair) (n : Nat) (x : dataPair) (h : n < l.length) :
    (l.set n x).take (n + 1) = l.take n ++ [x] := by
  induction l generalizing n with
  | nil => simp at h
  | cons a rest ih =>
    cases n with
    | zero => simp
    | succ m =>
      have hm : m < rest.length := by simpa using h
      simp [List.set, List.take, ih m hm]

theorem cleanupListsLoop_spec (ic : imdbClient) (fmt : String → String) (ids : List String) :
    ∀ (lists : List dataPair) (n : Nat), n + ids.length ≤ lists.length →
      (cleanupListsLoop ic fmt ids lists n).map (fun p => p.1.take p.2) =
        (cleanupPairs ic fmt ids).map (fun ps => lists.take n ++ ps) := by
  induction ids with
  | nil =>
    intro lists n _
    simp [cleanupListsLoop, cleanupPairs]
  | cons id rest ih =>
    intro lists n hn
    simp only [List.length_cons] at hn
    by_cases hnf : (ic.listItemsGet id).errIsNotFound = true
    · simp only [cleanupListsLoop, cleanupPairs, hnf, if_true]
      exact ih lists n (by omega)
    · cases hname : (ic.listItemsGet id).imdbListName with
      | none => simp [cleanupListsLoop, cleanupPairs, hnf, hname]
      | some name =>
        have hlt : n < lists.length := by omega
        simp only [cleanupListsLoop, cleanupPairs, hnf, hname, hlt, if_true, if_false,
          Bool.false_eq_true]
        rw [ih _ (n + 1) (by simp only [List.length_set]; omega), take_set_succ _ _ _ hlt]
        cases cleanupPairs ic fmt rest with
        | none => rfl
        | some ps => simp

theorem cleanupLists_eq (ic : imdbClient) (fmt : String → String) (ids : List String) :
    cleanupLists ic fmt ids = cleanupPairs ic fmt ids := by
  have h := cleanupListsLoop_spec ic fmt ids (List.replicate ids.length {}) 0 (by simp)
  unfold cleanupLists
  cases hl : cleanupListsLoop ic fmt ids (List.replicate ids.length {}) 0 with
  | none =>
    rw [hl] at h
    cases hp : cleanupPairs ic fmt ids with
    | none => rfl
    | some ps => simp [hp] at h
  | some p =>
    rw [hl] at h
    cases hp : cleanupPairs ic fmt ids with
    | none => simp [hp] at h
    | some ps =>
      simp only [hp, Option.map_some', List.take_zero, List.nil_append,
        Option.some.injEq] at h
      simp [h]

theorem cleanupPairs_forall₂ (ic : imdbClient) (fmt : String → String) (ids : List String)
    (ps : List dataPair) (h : cleanupPairs ic fmt ids = some ps) :
    List.Forall₂ (fetchedPair ic fmt)
      (ids.filter (fun id => !(ic.listItemsGet id).errIsNotFound)) ps := by
  induction ids generalizing ps with
  | nil =>
    simp only [cleanupPairs, Option.some.injEq] at h
    subst h
    exact List.Forall₂.nil
  | cons id rest ih =>
    by_cases hnf : (ic.listItemsGet id).errIsNotFound = true
    · simp only [cleanupPairs, hnf, if_true] at h
      simpa [List.filter_cons, hnf] using ih ps h
    · cases hname : (ic.listItemsGet id).imdbListName with
      | none => simp [cleanupPairs, hnf, hname] at h
      | some name =>
        cases hr : cleanupPairs ic fmt rest with
        | none => simp [cleanupPairs, hnf, hname, hr] at h
        | some ps' =>
          simp only [cleanupPairs, hnf, hname, hr, if_false, Bool.false_eq_true,
            Option.map_some', Option.some.injEq] at h
          subst h
          have hc : List.Forall₂ (fetchedPair ic fmt)
              (id :: rest.filter (fun id => !(ic.listItemsGet id).errIsNotFound))
              ({ imdbList := (ic.listItemsGet id).imdbList, imdbListId := id,
                 imdbListName := name, traktListId := fmt name } :: ps') :=
            List.Forall₂.cons ⟨rfl, hname, rfl, rfl, rfl, rfl⟩ (ih ps' hr)
          simpa [List.filter_cons, hnf] using hc

theorem cleanupPairs_isSome (ic : imdbClient) (fmt : String → String) (ids : List String)
    (h : ∀ id ∈ ids, (ic.listItemsGet id).errIsNotFound = false →
      (ic.listItemsGet id).imdbListName.isSome) :
    (cleanupPairs ic fmt ids).isSome := by
  induction ids with
  | nil => rfl
  | cons id rest ih =>
    have hrest := ih (fun j hj => h j (List.mem_cons_of_mem _ hj))
    by_cases hnf : (ic.listItemsGet id).errIsNotFound = true
    · simpa [cleanupPairs, hnf] using hrest
    · have hname := h id (List.mem_cons_self _ _) (by simpa using hnf)
      obtain ⟨name, hname⟩ := Option.isSome_iff_exists.mp hname
      obtain ⟨ps, hps⟩ := Option.isSome_iff_exists.mp hrest
      simp [cleanupPairs, hnf, hname, hps]

/-- What `cleanupLists` returns when it does: in request order, exactly one pair for
every requested id whose lookup does not report not-found, and none for the others,
so the result is never longer than the request; each pair has the requested id, the
fetched name and items, `formatTraktListName` of the name as `traktListId`, and is
not the watchlist. It returns when every lookup that does not report not-found gives
a list name. -/
theorem cleanupLists_drops_not_found (ic : imdbClient)
    (formatTraktListName : String → String) (imdbListIds : List String) :
    (∀ ps : List dataPair, cleanupLists ic formatTraktListName imdbListIds = some ps →
      List.Forall₂ (fetchedPair ic formatTraktListName)
        (imdbListIds.filter (fun id => !(ic.listItemsGet id).errIsNotFound)) ps ∧
      ps.length ≤ imdbListIds.length) ∧
    ((∀ id ∈ imdbListIds, (ic.listItemsGet id).errIsNotFound = false →
        (ic.listItemsGet id).imdbListName.isSome) →
      (cleanupLists ic formatTraktListName imdbListIds).isSome) := by
  refine ⟨fun ps h => ?_, fun h => ?_⟩
  · rw [cleanupLists_eq] at h
    have hf := cleanupPairs_forall₂ ic formatTraktListName imdbListIds ps h
    refine ⟨hf, ?_⟩
    rw [← hf.length_eq]
    exact List.length_filter_le _ _
  · rw [cleanupLists_eq]
    exact cleanupPairs_isSome ic formatTraktListName imdbListIds h

theorem cleanupLists_drops_not_found_witness :
    cleanupLists clientI id ["ls1", "ls2", "ls3"] = some pairsI ∧
    (List.Forall₂ (fetchedPair clientI id)
        (["ls1", "ls2", "ls3"].filter (fun i => !(clientI.listItemsGet i).errIsNotFound))
        pairsI ∧
      pairsI.length ≤ ["ls1", "ls2", "ls3"].length) ∧
    (cleanupLists clientI id ["ls1", "ls2", "ls3"]).isSome :=
  ⟨by decide,
    (cleanupLists_drops_not_found clientI id ["ls1", "ls2", "ls3"]).1 pairsI (by decide),
    (cleanupLists_drops_not_found clientI id ["ls1", "ls2", "ls3"]).2 (by decide)⟩

/-- The function returns exactly when every lookup that does not report not-found
gives a list name. -/
theorem cleanupLists_isSome_iff (ic : imdbClient) (formatTraktListName : String → String)
    (imdbListIds : List String) :
    (cleanupLists ic formatTraktListName imdbListIds).isSome ↔
      ∀ id ∈ imdbListIds, (ic.listItemsGet id).errIsNotFound = false →
        (ic.listItemsGet id).imdbListName.isSome := by
  rw [cleanupLists_eq]
  induction imdbListIds with
  | nil => simp [cleanupPairs]
  | cons id rest ih =>
    by_cases hnf : (ic.listItemsGet id).errIsNotFound = true
    · simp [cleanupPairs, hnf, ih]
    · cases hname : (ic.listItemsGet id).imdbListName with
      | none => simp [cleanupPairs, hnf, hname]
      | some name => simp [cleanupPairs, hnf, hname, ih]

/-- C16 fails on the code: for the requested ids ls1 and ls9, where the lookup of ls9
fails with an error that is not `errNotFound` and gives a nil list name, the test of
line 128 lets ls9 through and the dereference of the name at line 134 panics:
`cleanupLists` returns nothing, where the claim has it return the pair of ls1 and
one pair for ls9. -/
theorem cleanupLists_panics_on_other_error :
    (clientJ.listItemsGet "ls9").errIsNotFound = false ∧
    (clientJ.listItemsGet "ls9").imdbListName = none ∧
    cleanupLists clientJ id ["ls1", "ls9"] = none ∧
    cleanupLists clientJ id ["ls1"] =
      some [ { imdbListId := "ls1", imdbListName := "Foo", traktListId := "Foo" } ] := by
  decide

end ImdbTraktSync
